import Mathlib

/-!
Verification development for the billing/notes scrubber (src/app.py).

The billing engine (scrub_billing_data) and the note engine
(scrub_session_notes) are shallowly embedded below.  Tabular data is
modelled positionally (a list of column names plus one list of cells per
row), mirroring a dataframe produced by a CSV/spreadsheet reader: each
cell is either a string, a number (floats are modelled as rationals), or
a missing value (NaN).  Library parsers (to_numeric, to_datetime) are
modelled as concrete total functions with explicit failure; timestamps
are modelled as integer minute counts, so that only their ordering and
date component matter, exactly as in the engine.  Python exceptions
escaping the function are modelled by an explicit result constructor.
-/

/-! ## String utilities

Executable character-list implementations of the string operations the
source relies on (strip, substring containment, split, lower), written
directly over the character data so that concrete witnesses evaluate by
kernel reduction. -/

/-- Whitespace characters recognised by strip. -/
def isSpaceChar (c : Char) : Bool :=
  c == ' ' || c == '\t' || c == '\n' || c == '\r'

/-- Models str.strip applied to a column name. -/
def stripName (s : String) : String :=
  ⟨((s.data.dropWhile isSpaceChar).reverse.dropWhile isSpaceChar).reverse⟩

/-- True when the pattern occurs as a contiguous sublist of the text. -/
def subOcc (pat : List Char) : List Char → Bool
  | [] => pat.isEmpty
  | c :: rest => pat.isPrefixOf (c :: rest) || subOcc pat rest

/-- Models the Python substring test: pat in s. -/
def strContains (s pat : String) : Bool :=
  subOcc pat.data s.data

/-- Models str.lower. -/
def lowerStr (s : String) : String :=
  ⟨s.data.map Char.toLower⟩

/-- Splits off the text before the first occurrence of sep, together with
the text after it; none when sep does not occur. -/
def splitAtSub (sep : List Char) : List Char → Option (List Char × List Char)
  | [] => if sep.isEmpty then some ([], []) else none
  | c :: rest =>
    if sep.isPrefixOf (c :: rest) then some ([], (c :: rest).drop sep.length)
    else (splitAtSub sep rest).map (fun p => (c :: p.1, p.2))

/-- Fuelled worker for splitOnStr; each step consumes at least one
character of the text, so fuel equal to the text length suffices. -/
def splitOnAuxL (sep : List Char) : Nat → List Char → List (List Char)
  | 0, cs => [cs]
  | fuel + 1, cs =>
    match splitAtSub sep cs with
    | some (pre, post) => pre :: splitOnAuxL sep fuel post
    | none => [cs]

/-- Models str.split(sep): the fragments between the non-overlapping
occurrences of sep, scanned left to right. -/
def splitOnStr (s sep : String) : List String :=
  if sep.data.isEmpty then [s]
  else (splitOnAuxL sep.data (s.data.length + 1) s.data).map String.mk

/-- Numeric value of a decimal digit. -/
def digitVal (c : Char) : Option Nat :=
  if c.isDigit then some (c.toNat - 48) else none

/-- Parses a nonempty all-digit character list as a natural number. -/
def natOfDigits : List Char → Option Nat
  | [] => none
  | [c] => digitVal c
  | c :: rest =>
    match digitVal c, natOfDigits rest with
    | some d, some n => some (d * 10 ^ rest.length + n)
    | _, _ => none

/-- Parses an optionally negated decimal integer literal. -/
def parseInt? (s : String) : Option Int :=
  match s.data with
  | '-' :: rest => (natOfDigits rest).map (fun n => -(n : Int))
  | cs => (natOfDigits cs).map (fun n => (n : Int))

/-! ## Cells and library parsers -/

/-- One dataframe cell: a string, a numeric value (pandas floats are
modelled as rationals), or a missing value (NaN).  The model assumes the
declared schema of the spec: name and description columns hold strings
or missing values, numeric columns hold numbers or missing values. -/
inductive Cell
  | s (v : String)
  | n (v : Rat)
  | na
deriving DecidableEq

/-- Models pd.to_numeric(..., errors=coerce) on one cell: numbers pass
through, numeric strings are parsed, everything else becomes missing. -/
def toNumeric : Cell → Option Rat
  | .n v => some v
  | .s v => (parseInt? v).map (fun z => (z : Rat))
  | .na => none

/-- Models pd.to_datetime on one cell.  A timestamp is an integer minute
count; a string cell parses when it is an integer literal, modelling the
set of strings the library accepts, and any other cell fails.  (The
library turns a missing value into NaT instead of raising; no claim
touches that corner and the witnesses below use string cells only.) -/
def toDatetime : Cell → Option Int
  | .s v => parseInt? v
  | .n v => if v.den = 1 then some v.num else none
  | .na => none

/-- Minutes per day; timestamps are minute counts, so the calendar-date
component of a timestamp is its floored day index. -/
def dateOnlyOf (ts : Int) : Int :=
  ts.ediv 1440

/-- String content of a cell, as used for the location description:
str(...) of a missing value is the text nan. -/
def cellText : Cell → String
  | .s v => v
  | .n _ => ""
  | .na => "nan"

/-- Name content of a cell after fillna with the empty string. -/
def cellToName : Cell → String
  | .s v => v
  | .n _ => ""
  | .na => ""

/-! ## Rule catalog (section 2 of the source) -/

def MAX_SESSION_HOURS : Rat := 4

def MAX_SUPERVISION_HOURS : Rat := 2

def HIGH_DRIVE_TIME : Rat := 60

def CODE_DIRECT_CARE : Rat := 97153

def CODE_SUPERVISION_1 : Rat := 97155

def CODE_PARENT_TRAINING_ALL : List Rat := [97156, 97157, 96167, 96168, 96170, 96171]

def BASE_ADDON_PAIRS : List (Rat × Rat) := [(96158, 96159), (96164, 96165), (96167, 96168), (96170, 96171)]

def BASE_CODES : List Rat := BASE_ADDON_PAIRS.map Prod.fst

def SUPERVISION_PAIRS : List (Rat × Rat) := [(97155, 97153), (96156, 96159)]

def CODES_CONFLICT_WITH_DIRECT : List Rat := [96167, 96168]

def FORBIDDEN_LOCATIONS_CODES : List Cell := [.n 3, .s "03"]

def FORBIDDEN_LOCATIONS_TEXT : List String := ["school"]

/-! ## Normalized rows and issues -/

/-- One normalized billing row, as assembled by scrub_billing_data after
column stripping, code coercion, name synthesis and date parsing.  The
worked-hours and drive-time cells stay raw (the source only reads them
inside the row loop), as do the optional location fields. -/
structure Row where
  clientName : String
  providerName : String
  procedureCode : Rat
  dateOfService : Int
  dateOnly : Int
  timeWorkedFrom : Int
  timeWorkedTo : Int
  timeWorkedInHours : Cell
  driveTimeInMinutes : Cell
  locationCode : Cell
  locationDescription : Cell
  is_supervised : Bool
deriving DecidableEq

/-- The Date field of an issue record: a calendar date, or the literal
label Monthly used by the aggregate checks. -/
inductive IssueDate
  | onDate (d : Int)
  | monthly
deriving DecidableEq

/-- The Issue field of an issue record.  Constructors carry the values
the source interpolates into the kind string: duplicateBase b renders as
Duplicate Base b, orphanedAddon a as Orphaned Add-on a, noOverlapFor c
as No Overlap for c. -/
inductive IssueKind
  | sessionOver4
  | supervisionOver2
  | forbiddenLocation
  | highTravel
  | directFamilyConflict
  | duplicateBase (code : Rat)
  | orphanedAddon (code : Rat)
  | sequenceError
  | noOverlapFor (code : Rat)
  | missingParentTraining
  | rbtNeverSupervised
deriving DecidableEq

/-- The Detail field of an issue record: the structured pre-rendering of
the interpolated detail string, one constructor per detail format of the
source, carrying exactly the values the format embeds. -/
inductive Detail
  | lastedHours (code : Rat) (hours : Cell)
  | hoursOnly (hours : Cell)
  | codeAndDesc (code : Cell) (desc : String)
  | minsOnly (mins : Cell)
  | cannotBillSameDay
  | billedMultiple
  | noBaseCode
  | baseStartedAfter (base : Rat)
  | noConcurrent (target : Rat)
  | noneThisMonth
  | providerNoOverlap (provider : String)
deriving DecidableEq

/-- One billing issue record, mirroring the dict the source appends. -/
structure Issue where
  client : String
  date : IssueDate
  kind : IssueKind
  detail : Detail
deriving DecidableEq

/-! ## Pass A: per-row checks (source lines 100-110)

A string cell in a numeric comparison raises a TypeError in Python; the
comparison is therefore modelled in the Except monad, and the row pass
aborts at the first raising row, exactly as the source loop does. -/

/-- Models the Python comparison cell > bound: numbers compare, a missing
value compares false (NaN semantics), a string raises. -/
def cellGT (c : Cell) (b : Rat) : Except String Bool :=
  match c with
  | .n v => .ok (decide (b < v))
  | .na => .ok false
  | .s _ => .error "TypeError"

/-- The Session > 4 Hours issue emitted for a row. -/
def sessionIssue (r : Row) : Issue :=
  { client := r.clientName, date := .onDate r.dateOnly, kind := .sessionOver4,
    detail := .lastedHours r.procedureCode r.timeWorkedInHours }

/-- The Supervision > 2 Hours issue emitted for a row. -/
def supervisionIssue (r : Row) : Issue :=
  { client := r.clientName, date := .onDate r.dateOnly, kind := .supervisionOver2,
    detail := .hoursOnly r.timeWorkedInHours }

/-- The forbidden-location test on a row: location code among the
forbidden codes, or the lowered description contains a forbidden word. -/
def forbiddenLoc (r : Row) : Bool :=
  FORBIDDEN_LOCATIONS_CODES.contains r.locationCode ||
    FORBIDDEN_LOCATIONS_TEXT.any (fun x => strContains (lowerStr (cellText r.locationDescription)) x)

/-- The Forbidden Location issue emitted for a row. -/
def locationIssue (r : Row) : Issue :=
  { client := r.clientName, date := .onDate r.dateOnly, kind := .forbiddenLocation,
    detail := .codeAndDesc r.locationCode (lowerStr (cellText r.locationDescription)) }

/-- The High Travel Time issue emitted for a row. -/
def travelIssue (r : Row) : Issue :=
  { client := r.clientName, date := .onDate r.dateOnly, kind := .highTravel,
    detail := .minsOnly r.driveTimeInMinutes }

/-- The four per-row checks of one row, in source order; the supervision
bound is only compared when the code matches, mirroring the Python
short-circuit. -/
def rowChecks (r : Row) : Except String (List Issue) :=
  match cellGT r.timeWorkedInHours MAX_SESSION_HOURS with
  | .error e => .error e
  | .ok b1 =>
    match (if r.procedureCode == CODE_SUPERVISION_1 then cellGT r.timeWorkedInHours MAX_SUPERVISION_HOURS else .ok false) with
    | .error e => .error e
    | .ok b2 =>
      match cellGT r.driveTimeInMinutes HIGH_DRIVE_TIME with
      | .error e => .error e
      | .ok b4 =>
        .ok ((if b1 then [sessionIssue r] else []) ++
             (if b2 then [supervisionIssue r] else []) ++
             (if forbiddenLoc r then [locationIssue r] else []) ++
             (if b4 then [travelIssue r] else []))

/-- The whole row loop: issues of every row in order, aborting at the
first row that raises. -/
def rowPass : List Row → Except String (List Issue)
  | [] => .ok []
  | r :: rs =>
    match rowChecks r with
    | .error e => .error e
    | .ok l =>
      match rowPass rs with
      | .error e => .error e
      | .ok ls => .ok (l ++ ls)

/-! ## Pass B: per-(client, date) group checks (source lines 113-128)

Groups are the distinct (Client Name, DateOnly) keys; the dataframe
groupby sorts the keys, which only permutes the relative order of
different groups in the issue list, so the keys are taken here in
deduplicated order instead. -/

/-- The (client, date) grouping key of a row. -/
def groupKey (r : Row) : String × Int :=
  (r.clientName, r.dateOnly)

/-- The distinct grouping keys of the table. -/
def groupKeys (rows : List Row) : List (String × Int) :=
  (rows.map groupKey).dedup

/-- The Direct Care and Family Conflict issue for a group. -/
def conflictIssue (k : String × Int) : Issue :=
  { client := k.1, date := .onDate k.2, kind := .directFamilyConflict,
    detail := .cannotBillSameDay }

/-- The Duplicate Base issue for a group and a base code. -/
def dupBaseIssue (k : String × Int) (b : Rat) : Issue :=
  { client := k.1, date := .onDate k.2, kind := .duplicateBase b,
    detail := .billedMultiple }

/-- The Orphaned Add-on issue for a group and an add-on code. -/
def orphanIssue (k : String × Int) (a : Rat) : Issue :=
  { client := k.1, date := .onDate k.2, kind := .orphanedAddon a,
    detail := .noBaseCode }

/-- The Sequence Error issue for a group and a base code. -/
def seqIssue (k : String × Int) (b : Rat) : Issue :=
  { client := k.1, date := .onDate k.2, kind := .sequenceError,
    detail := .baseStartedAfter b }

/-- Earliest start time of a nonempty list of rows. -/
def minFrom (l : List Row) : Int :=
  ((l.map Row.timeWorkedFrom).min?).getD 0

/-- The checks of one (client, date) group, in source order: same-day
conflict, duplicate base codes, then orphaned add-ons and base/add-on
sequence errors. -/
def groupChecksFor (rows : List Row) (k : String × Int) : List Issue :=
  let group := rows.filter (fun r => r.clientName == k.1 && r.dateOnly == k.2)
  let codes := group.map Row.procedureCode
  (if codes.contains CODE_DIRECT_CARE && codes.any (fun c => CODES_CONFLICT_WITH_DIRECT.contains c)
   then [conflictIssue k] else []) ++
  (BASE_CODES.flatMap (fun b => if 1 < codes.count b then [dupBaseIssue k b] else [])) ++
  (BASE_ADDON_PAIRS.flatMap (fun p =>
    let addonRows := group.filter (fun r => r.procedureCode == p.2)
    let baseRows := group.filter (fun r => r.procedureCode == p.1)
    if addonRows.isEmpty then []
    else if baseRows.isEmpty then [orphanIssue k p.2]
    else if minFrom addonRows < minFrom baseRows then [seqIssue k p.1] else []))

/-- The whole group pass: the checks of every distinct group. -/
def groupPass (rows : List Row) : List Issue :=
  (groupKeys rows).flatMap (groupChecksFor rows)

/-! ## Pass C: supervision-overlap checks (source lines 131-140) -/

/-- The overlap filter of the source: same client and strict open
interval intersection with the supervising row. -/
def overlapPred (sup t : Row) : Bool :=
  t.clientName == sup.clientName &&
    decide (t.timeWorkedFrom < sup.timeWorkedTo) &&
    decide (sup.timeWorkedFrom < t.timeWorkedTo)

/-- The No Overlap issue emitted for a supervising row. -/
def noOverlapIssue (sc tc : Rat) (sup : Row) : Issue :=
  { client := sup.clientName, date := .onDate sup.dateOnly, kind := .noOverlapFor sc,
    detail := .noConcurrent tc }

/-- Marks every target-code row overlapping the supervising row as
supervised.  The source marks by dataframe index; since marking changes
only the is_supervised flag, which the overlap filter never reads, the
marked positions are exactly the rows satisfying the filter. -/
def markRows (tc : Rat) (sup : Row) (rs : List Row) : List Row :=
  rs.map (fun r => if r.procedureCode == tc && overlapPred sup r
                   then { r with is_supervised := true } else r)

/-- One supervision pair: the supervising and target rows are snapshots
taken before the inner loop; the loop emits a No Overlap issue per
supervising row without overlap, and for the 97155 pair marks every
overlapping target row.  Marking cannot change the snapshots or the
filter results, since it touches only the is_supervised flag, so the
issue list is the flat map over the supervising snapshot. -/
def overlapPairPass (sc tc : Rat) (rows : List Row) : List Issue × List Row :=
  let supRows := rows.filter (fun r => r.procedureCode == sc)
  let targetRows := rows.filter (fun r => r.procedureCode == tc)
  let issues := supRows.flatMap (fun sup =>
    if (targetRows.filter (overlapPred sup)).isEmpty
    then [noOverlapIssue sc tc sup] else [])
  let rows2 := supRows.foldl (fun rs sup =>
    if (targetRows.filter (overlapPred sup)).isEmpty then rs
    else if sc == CODE_SUPERVISION_1 then markRows tc sup rs else rs) rows
  (issues, rows2)

/-- The whole overlap pass: both configured supervision pairs in order,
threading the marked table from one pair to the next. -/
def overlapPass (rows : List Row) : List Issue × List Row :=
  SUPERVISION_PAIRS.foldl
    (fun acc p =>
      let res := overlapPairPass p.1 p.2 acc.2
      (acc.1 ++ res.1, res.2))
    ([], rows)

/-! ## Pass D: per-client monthly checks (source lines 143-150) -/

/-- The Missing Parent Training issue for a client. -/
def parentTrainingIssue (client : String) : Issue :=
  { client := client, date := .monthly, kind := .missingParentTraining,
    detail := .noneThisMonth }

/-- The RBT Never Supervised issue for a client and provider. -/
def rbtIssue (client provider : String) : Issue :=
  { client := client, date := .monthly, kind := .rbtNeverSupervised,
    detail := .providerNoOverlap provider }

/-- The monthly checks of one client: parent-training presence, then one
check per distinct provider of direct-care sessions. -/
def monthlyChecksFor (rows : List Row) (client : String) : List Issue :=
  let group := rows.filter (fun r => r.clientName == client)
  (if group.any (fun r => CODE_PARENT_TRAINING_ALL.contains r.procedureCode)
   then [] else [parentTrainingIssue client]) ++
  (((group.filter (fun r => r.procedureCode == CODE_DIRECT_CARE)).map Row.providerName).dedup.flatMap
    (fun p =>
      let sessions := group.filter (fun r => r.providerName == p && r.procedureCode == CODE_DIRECT_CARE)
      if sessions.any Row.is_supervised then [] else [rbtIssue client p]))

/-- The whole monthly pass over the marked table. -/
def monthlyPass (rows : List Row) : List Issue :=
  ((rows.map Row.clientName).dedup).flatMap (monthlyChecksFor rows)

/-- The billing rule engine over a normalized table: the four passes in
source order, the overlap pass feeding its marked table to the monthly
pass; only the row pass can raise. -/
def runRules (rows : List Row) : Except String (List Issue) :=
  match rowPass rows with
  | .error e => .error e
  | .ok rowIss =>
    .ok (rowIss ++ groupPass rows ++ (overlapPass rows).1 ++ monthlyPass (overlapPass rows).2)

/-! ## Billing normalizer and full scrub (source lines 77-98, 152)

A raw table is a list of column names plus one positionally aligned cell
list per row.  Accessing a column that does not exist raises a KeyError
in Python; outside the date try-block such an exception escapes the
function, which the result type records as raised, while inside the
try-block it is caught and turned into the Date Error return. -/

/-- A raw tabular input, as handed over by the CSV/spreadsheet reader. -/
structure RawTable where
  cols : List String
  cells : List (List Cell)
deriving DecidableEq

/-- Column-name stripping (source line 78): renames the columns without
touching the data. -/
def stripCols (t : RawTable) : RawTable :=
  { t with cols := t.cols.map stripName }

/-- Extracts the cells of a named column; error is a KeyError for a
missing column. -/
def colCells (t : RawTable) (c : String) : Except String (List Cell) :=
  match t.cols.findIdx? (fun x => x == c) with
  | some j => .ok (t.cells.map (fun row => row.getD j Cell.na))
  | none => .error c

/-- Extracts an optional column via row.get with default empty string:
a missing column yields empty-string cells instead of raising. -/
def optCol (t : RawTable) (c : String) : List Cell :=
  match t.cols.findIdx? (fun x => x == c) with
  | some j => t.cells.map (fun row => row.getD j Cell.na)
  | none => t.cells.map (fun _ => Cell.s "")

/-- Extracts a column that the source only reads inside the row loop:
the KeyError for a missing column is raised at the first row, so the
access succeeds vacuously on a table without rows. -/
def reqRowCol (t : RawTable) (c : String) : Except String (List Cell) :=
  match colCells t c with
  | .ok cs => .ok cs
  | .error cname => if t.cells.isEmpty then .ok [] else .error cname

/-- Code coercion and row dropping (source lines 79-80): coerces the
ProcedureCode column, silently dropping every row whose code does not
coerce, and returns the surviving subtable with the parsed codes. -/
def dropStage (t : RawTable) : Except String (RawTable × List Rat) :=
  match colCells t "ProcedureCode" with
  | .error c => .error c
  | .ok codeCells =>
    let kept := (t.cells.zip codeCells).filterMap
      (fun p => (toNumeric p.2).map (fun q => (p.1, q)))
    .ok (⟨t.cols, kept.map Prod.fst⟩, kept.map Prod.snd)

/-- Name synthesis (source lines 82-85): uses the direct name column if
present, otherwise concatenates the first/last components with a space,
missing parts filled with the empty string; a missing component column
raises, first component first. -/
def namesFrom (t : RawTable) (direct first last : String) : Except String (List String) :=
  match colCells t direct with
  | .ok cs => .ok (cs.map cellToName)
  | .error _ =>
    match colCells t first with
    | .error c => .error c
    | .ok fs =>
      match colCells t last with
      | .error c => .error c
      | .ok ls => .ok ((fs.zip ls).map (fun p => cellToName p.1 ++ " " ++ cellToName p.2))

/-- Parses a whole column of cells as timestamps, failing when any cell
fails. -/
def parseCells : List Cell → Option (List Int)
  | [] => some []
  | c :: cs =>
    match toDatetime c, parseCells cs with
    | some v, some vs => some (v :: vs)
    | _, _ => none

/-- One column of the date try-block: a missing column or an unparseable
cell is an error, which the try-block turns into the Date Error return. -/
def parseDateCol (t : RawTable) (c : String) : Except String (List Int) :=
  match colCells t c with
  | .error cname => .error cname
  | .ok cs =>
    match parseCells cs with
    | some vs => .ok vs
    | none => .error c

/-- The date try-block (source lines 87-92): the three timestamp columns
in source order, stopping at the first failure. -/
def dateCols (t : RawTable) : Except String (List Int × List Int × List Int) :=
  match parseDateCol t "TimeWorkedFrom" with
  | .error m => .error m
  | .ok fs =>
    match parseDateCol t "TimeWorkedTo" with
    | .error m => .error m
    | .ok ts =>
      match parseDateCol t "DateOfService" with
      | .error m => .error m
      | .ok ds => .ok (fs, ts, ds)

/-- Assembles one normalized row; DateOnly is derived from the parsed
DateOfService and is_supervised is initialized to false (source lines
94-95). -/
def mkRow (code : Rat) (client provider : String) (fromT toT dosT : Int)
    (hc dc lc ld : Cell) : Row :=
  { clientName := client, providerName := provider, procedureCode := code,
    dateOfService := dosT, dateOnly := dateOnlyOf dosT,
    timeWorkedFrom := fromT, timeWorkedTo := toT,
    timeWorkedInHours := hc, driveTimeInMinutes := dc,
    locationCode := lc, locationDescription := ld, is_supervised := false }

/-- Assembles the normalized table from the positionally aligned column
lists; within the scrub all the lists have the common row count. -/
def mkRows (codes : List Rat) (clients providers : List String)
    (fs ts ds : List Int) (hcs dcs lcs lds : List Cell) : List Row :=
  (List.range codes.length).map (fun i =>
    mkRow (codes.getD i 0) (clients.getD i "") (providers.getD i "")
      (fs.getD i 0) (ts.getD i 0) (ds.getD i 0)
      (hcs.getD i Cell.na) (dcs.getD i Cell.na)
      (lcs.getD i (Cell.s "")) (lds.getD i (Cell.s "")))

/-- The outcome of one billing run.  raised models a Python exception
escaping scrub_billing_data to the surrounding UI handler; dateError
models the caught branch of the try-block, which returns the single
diagnostic string Date Error in place of the issue list; report is the
normal issue-list return. -/
inductive ScrubResult
  | raised (msg : String)
  | dateError (msg : String)
  | report (issues : List Issue)
deriving DecidableEq

/-- True for the two degenerate outcomes that carry a single diagnostic
instead of an issue list. -/
def ScrubResult.isAbort : ScrubResult → Bool
  | .raised _ => true
  | .dateError _ => true
  | .report _ => false

/-- The whole billing scrub (source lines 77-152): column stripping,
code coercion with silent row dropping, name synthesis, the date
try-block, lazy extraction of the row-loop columns, then the four rule
passes. -/
def scrub_billing_data (t0 : RawTable) : ScrubResult :=
  let t := stripCols t0
  match dropStage t with
  | .error c => .raised c
  | .ok (t1, codes) =>
    match namesFrom t1 "Client Name" "ClientFirstName" "ClientLastName" with
    | .error c => .raised c
    | .ok clients =>
      match namesFrom t1 "Provider Name" "ProviderFirstName" "ProviderLastName" with
      | .error c => .raised c
      | .ok providers =>
        match dateCols t1 with
        | .error m => .dateError m
        | .ok dts =>
          match reqRowCol t1 "TimeWorkedInHours" with
          | .error c => .raised c
          | .ok hcs =>
            match reqRowCol t1 "DriveTimeInMinutes" with
            | .error c => .raised c
            | .ok dcs =>
              let rows := mkRows codes clients providers dts.1 dts.2.1 dts.2.2
                hcs dcs (optCol t1 "LocationCode") (optCol t1 "LocationDescription")
              match runRules rows with
              | .error m => .raised m
              | .ok issues => .report issues

/-- The rows surviving the procedure-code coercion, or no rows when the
ProcedureCode column itself is missing. -/
def survivors (t0 : RawTable) : List (List Cell) :=
  match dropStage (stripCols t0) with
  | .ok p => p.1.cells
  | .error _ => []

/-- The columns the engine reads unconditionally; their absence is the
fatal-input case of the spec. -/
def requiredColumns : List String :=
  ["ProcedureCode", "TimeWorkedFrom", "TimeWorkedTo", "DateOfService",
   "TimeWorkedInHours", "DriveTimeInMinutes"]

/-! ## Note engine (source lines 154-183)

The document text arrives as one concatenated string (page extraction is
an external collaborator); the segmenter splits it on the Activity
Statement delimiter and drops the preamble.  The goal-data-point rule of
the source uses the regex, added a data point .*? to (.*?) for, with
lazy gaps that do not cross newlines; it is modelled by a small
backtracking matcher over the character data. -/

/-- Word characters for the regex word-boundary anchors. -/
def wordChar (c : Char) : Bool :=
  c.isAlphanum || c == '_'

/-- True when the pattern matches the text right here with word
boundaries on both sides, prev being the character just before. -/
def wbHere (prev : Option Char) (cs pat : List Char) : Bool :=
  (match prev with | none => true | some c => !wordChar c) &&
  pat.isPrefixOf cs &&
  (match cs.drop pat.length with | [] => true | c :: _ => !wordChar c)

/-- Scans the text for a word-bounded occurrence of the pattern. -/
def wbScan (prev : Option Char) (pat : List Char) : List Char → Bool
  | [] => wbHere prev [] pat
  | c :: rest => wbHere prev (c :: rest) pat || wbScan (some c) pat rest

/-- The alternatives of the CPT-code regex. -/
def cptCodes : List String :=
  ["97153", "97155", "97156", "96158", "96159", "96167", "96168"]

/-- True when the segment contains a word-bounded occurrence of any
valid billing code, modelling nonemptiness of the findall result. -/
def hasAnyCpt (note : String) : Bool :=
  cptCodes.any (fun c => wbScan none c.data note.data)

/-- Characters a lazy dot gap may consume: anything but a newline. -/
def dotChar (c : Char) : Bool :=
  c != '\n'

/-- Lazily consumes a dot gap up to the first position where the literal
matches, returning the gap and the text after the literal; fails when a
newline or the end of the text comes first. -/
def seekLit (lit : List Char) : List Char → Option (List Char × List Char)
  | [] => if lit.isEmpty then some ([], []) else none
  | c :: rest =>
    if lit.isPrefixOf (c :: rest) then some ([], (c :: rest).drop lit.length)
    else if dotChar c then (seekLit lit rest).map (fun p => (c :: p.1, p.2))
    else none

/-- The literal pieces of the goal-data-point regex. -/
def goalLit1 : List Char := "added a data point ".data

def goalLitTo : List Char := " to ".data

def goalLitFor : List Char := " for".data

/-- Matches the tail of the goal regex after its first literal: a lazy
gap, the to literal, the lazy capture, the for literal; when the capture
cannot be completed the matcher backtracks by widening the first gap,
exactly as a lazy regex engine does.  Fuel bounds the widening and one
more than the text length always suffices. -/
def matchToFor : Nat → List Char → Option (List Char × List Char)
  | 0, _ => none
  | _ + 1, [] => none
  | fuel + 1, c :: rest =>
    match (if goalLitTo.isPrefixOf (c :: rest)
           then seekLit goalLitFor ((c :: rest).drop goalLitTo.length)
           else none) with
    | some p => some p
    | none => if dotChar c then matchToFor fuel rest else none

/-- The findall of the goal regex: scans left to right, records each
capture, and resumes after the end of a match, so that matches do not
overlap.  Fuel bounds the scan and one more than the text length always
suffices. -/
def goalFind : Nat → List Char → List (List Char)
  | 0, _ => []
  | fuel + 1, [] => goalFind fuel []
  | fuel + 1, c :: rest =>
    if goalLit1.isPrefixOf (c :: rest) then
      match matchToFor (((c :: rest).drop goalLit1.length).length + 1)
              ((c :: rest).drop goalLit1.length) with
      | some p => p.1 :: goalFind fuel p.2
      | none => goalFind fuel rest
    else goalFind fuel rest

/-- The captured goal names of a segment, in match order. -/
def goalLines (note : String) : List String :=
  (goalFind (note.data.length + 1) note.data).map String.mk

/-- First occurrences of a string list in order, modelling the key order
of a Counter built from it. -/
def uniqFirst : List String → List String
  | [] => []
  | x :: xs => x :: uniqFirst (xs.filter (fun y => y != x))
termination_by l => l.length
decreasing_by
  simp only [List.length_cons]
  exact Nat.lt_succ_of_le (List.length_filter_le _ _)

/-- The goal names captured more than once, in first-occurrence order,
as joined into the Duplicate Goals detail. -/
def dupsOf (gl : List String) : List String :=
  (uniqFirst gl).filter (fun g => 1 < gl.count g)

/-- The Issue field of a note issue record. -/
inductive NoteKind
  | missingTaxId
  | missingCpt
  | participantsUnchecked
  | noDataPoints
  | duplicateGoals
  | missingSignature
deriving DecidableEq

/-- The Detail field of a note issue record; goalsRepeated carries the
names joined into the detail string. -/
inductive NoteDetail
  | taxNotFound
  | noCodeInText
  | noCheckboxes
  | goalSummaryEmpty
  | goalsRepeated (names : List String)
  | noSignature
deriving DecidableEq

/-- One note issue record, keyed by the 1-based note index. -/
structure NoteIssue where
  noteNum : Nat
  kind : NoteKind
  detail : NoteDetail
deriving DecidableEq

/-- The qualifying gate: a segment is a note when it mentions either
marker (source line 165). -/
def noteGate (note : String) : Bool :=
  strContains note "Goal Summary" || strContains note "Activities that were used"

/-- The Tax ID rule (source lines 166-167). -/
def taxRule (num : Nat) (note : String) : List NoteIssue :=
  if strContains note "Tax ID:" then [] else [⟨num, .missingTaxId, .taxNotFound⟩]

/-- The CPT-code presence rule (source lines 168-170). -/
def cptRule (num : Nat) (note : String) : List NoteIssue :=
  if hasAnyCpt note then [] else [⟨num, .missingCpt, .noCodeInText⟩]

/-- The participant-checkbox rule (source lines 171-173); only checked
when the participants marker appears. -/
def participantsRule (num : Nat) (note : String) : List NoteIssue :=
  if strContains note "Session participants" &&
      !(strContains note "☑") && !(strContains note "[x]")
  then [⟨num, .participantsUnchecked, .noCheckboxes⟩] else []

/-- The goal-data-point rule (source lines 174-180): an empty capture
list yields No Data Points, otherwise repeated captures yield Duplicate
Goals; the two branches exclude each other. -/
def dataPointRule (num : Nat) (note : String) : List NoteIssue :=
  if (goalLines note).length < 1 then [⟨num, .noDataPoints, .goalSummaryEmpty⟩]
  else if (goalLines note).length != (goalLines note).dedup.length
  then [⟨num, .duplicateGoals, .goalsRepeated (dupsOf (goalLines note))⟩] else []

/-- The signature rule (source lines 181-182). -/
def signatureRule (num : Nat) (note : String) : List NoteIssue :=
  if strContains note "Signed On:" then [] else [⟨num, .missingSignature, .noSignature⟩]

/-- The note rule engine on one segment (source lines 165-182): gate,
then the five independent text rules in source order. -/
def noteChecks (num : Nat) (note : String) : List NoteIssue :=
  if noteGate note then
    taxRule num note ++ cptRule num note ++ participantsRule num note ++
      dataPointRule num note ++ signatureRule num note
  else []

/-- Enumerates the segments from a starting index, collecting the issues
of each (source line 164). -/
def notesPass (n : Nat) : List String → List NoteIssue
  | [] => []
  | seg :: rest => noteChecks n seg ++ notesPass (n + 1) rest

/-- The whole note scrub on the concatenated document text: split on the
delimiter, discard the preamble, number the remaining segments from 1. -/
def scrub_session_notes (fullText : String) : List NoteIssue :=
  notesPass 1 ((splitOnStr fullText "Activity Statement").drop 1)

/-! ## Derived predicates and concrete witness inputs -/

/-- C2 witness: a 97155 row with no 97153 row at all receives the No
Overlap issue. -/
def w2row : Row :=
  { clientName := "Y", providerName := "S", procedureCode := 97155,
    dateOfService := 7200, dateOnly := 5, timeWorkedFrom := 600, timeWorkedTo := 660,
    timeWorkedInHours := .n 1, driveTimeInMinutes := .n 0,
    locationCode := .s "", locationDescription := .s "", is_supervised := false }

/-- C5 witness row: code 97155 worked 3 hours. -/
def w5row : Row :=
  { clientName := "Y", providerName := "S", procedureCode := 97155,
    dateOfService := 7200, dateOnly := 5, timeWorkedFrom := 600, timeWorkedTo := 780,
    timeWorkedInHours := .n 3, driveTimeInMinutes := .n 0,
    locationCode := .s "", locationDescription := .s "", is_supervised := false }

/-- A concrete document: one preamble, then one qualifying segment. -/
def w10text : String := "preamble Activity StatementGoal Summary"

/-- The issue the qualifying segment generates first. -/
def w10issue : NoteIssue := ⟨1, .missingTaxId, .taxNotFound⟩

/-- Sets the supervised flag of one row. -/
def setSup (r : Row) : Row :=
  { r with is_supervised := true }

/-- The exact condition under which the engine marks a row supervised:
it is a 97153 row and some 97155 row of the same client strictly
overlaps it. -/
def supMarkCond (rows : List Row) (r : Row) : Bool :=
  r.procedureCode == 97153 &&
    rows.any (fun s => s.procedureCode == CODE_SUPERVISION_1 && overlapPred s r)

/-- The per-prefix marking map: a row is marked when it has the target
code and some already-processed supervising row overlaps it. -/
def markAcc (tc : Rat) (sups : List Row) (r : Row) : Row :=
  if r.procedureCode == tc && sups.any (fun s => overlapPred s r) then setSup r else r

/-- A concrete 97153 row for the C3 witness. -/
def w3row : Row :=
  { clientName := "A", providerName := "P", procedureCode := 97153,
    dateOfService := 7200, dateOnly := 5, timeWorkedFrom := 0, timeWorkedTo := 60,
    timeWorkedInHours := .n 1, driveTimeInMinutes := .n 0,
    locationCode := .s "", locationDescription := .s "", is_supervised := false }

/-- A concrete table whose TimeWorkedFrom cell cannot be parsed. -/
def w1table : RawTable :=
  ⟨["ProcedureCode", "Client Name", "Provider Name", "TimeWorkedFrom", "TimeWorkedTo",
    "DateOfService", "TimeWorkedInHours", "DriveTimeInMinutes"],
   [[.s "97153", .s "Ann B", .s "Pat Q", .s "xx", .s "20", .s "30", .n 2, .n 5]]⟩

/-- A concrete raw table that is missing the TimeWorkedInHours column
and has no data rows. -/
def w7empty : RawTable :=
  ⟨["ProcedureCode", "Client Name", "Provider Name", "TimeWorkedFrom", "TimeWorkedTo",
    "DateOfService", "DriveTimeInMinutes"], []⟩

/-- A concrete table missing DriveTimeInMinutes with one surviving row. -/
def w7drive : RawTable :=
  ⟨["ProcedureCode", "Client Name", "Provider Name", "TimeWorkedFrom", "TimeWorkedTo",
    "DateOfService", "TimeWorkedInHours"],
   [[.s "97153", .s "Ann B", .s "Pat Q", .s "10", .s "20", .s "30", .n 2]]⟩

/-- A concrete 5-hour 97153 row for the C4 witness. -/
def w4row : Row :=
  { clientName := "A", providerName := "P", procedureCode := 97153,
    dateOfService := 7200, dateOnly := 5, timeWorkedFrom := 600, timeWorkedTo := 900,
    timeWorkedInHours := .n 5, driveTimeInMinutes := .n 0,
    locationCode := .s "", locationDescription := .s "", is_supervised := false }

/-- The number of occurrences of one procedure code in one (client,
date) group of the table. -/
def countCodeInGroup (rows : List Row) (c : String) (d : Int) (b : Rat) : Nat :=
  ((rows.filter (fun r => r.clientName == c && r.dateOnly == d)).map Row.procedureCode).count b

/-- Two 96158 rows of one client and day for the C6 witness. -/
def w6row1 : Row :=
  { clientName := "A", providerName := "P", procedureCode := 96158,
    dateOfService := 7200, dateOnly := 5, timeWorkedFrom := 0, timeWorkedTo := 60,
    timeWorkedInHours := .na, driveTimeInMinutes := .na,
    locationCode := .s "", locationDescription := .s "", is_supervised := false }

/-- The second 96158 row of the C6 witness table. -/
def w6row2 : Row :=
  { w6row1 with timeWorkedFrom := 100, timeWorkedTo := 160 }

/-- A function on rows that can only set the supervised flag. -/
def FlagOnly (f : Row → Row) : Prop :=
  ∀ r, f r = r ∨ f r = setSup r

/-! ## Structure lemmas for the billing passes -/

/-- Membership in the issue list of one row, characterised by the four
checks. -/
theorem rowChecks_ok_mem (r : Row) (l : List Issue) (h : rowChecks r = .ok l) (i : Issue) :
    i ∈ l ↔ (i = sessionIssue r ∧ cellGT r.timeWorkedInHours MAX_SESSION_HOURS = .ok true)
          ∨ (i = supervisionIssue r ∧ r.procedureCode = CODE_SUPERVISION_1 ∧
              cellGT r.timeWorkedInHours MAX_SUPERVISION_HOURS = .ok true)
          ∨ (i = locationIssue r ∧ forbiddenLoc r = true)
          ∨ (i = travelIssue r ∧ cellGT r.driveTimeInMinutes HIGH_DRIVE_TIME = .ok true) := by
  unfold rowChecks at h
  cases hb1 : cellGT r.timeWorkedInHours MAX_SESSION_HOURS with
  | error e => rw [hb1] at h; exact absurd h (by simp)
  | ok b1 =>
    rw [hb1] at h
    cases hpc : r.procedureCode == CODE_SUPERVISION_1 with
    | false =>
      rw [hpc] at h
      simp only [Bool.false_eq_true, if_false] at h
      cases hb4 : cellGT r.driveTimeInMinutes HIGH_DRIVE_TIME with
      | error e => rw [hb4] at h; exact absurd h (by simp)
      | ok b4 =>
        rw [hb4] at h
        simp only [Except.ok.injEq] at h
        subst h
        have hpc' : ¬ r.procedureCode = CODE_SUPERVISION_1 := by
          simpa using hpc
        cases b1 <;> cases b4 <;> cases hf : forbiddenLoc r <;>
          simp [hb1, hb4, hf, hpc', List.mem_append]
    | true =>
      rw [hpc] at h
      simp only [if_true] at h
      cases hb2 : cellGT r.timeWorkedInHours MAX_SUPERVISION_HOURS with
      | error e => rw [hb2] at h; exact absurd h (by simp)
      | ok b2 =>
        rw [hb2] at h
        cases hb4 : cellGT r.driveTimeInMinutes HIGH_DRIVE_TIME with
        | error e => rw [hb4] at h; exact absurd h (by simp)
        | ok b4 =>
          rw [hb4] at h
          simp only [Except.ok.injEq] at h
          subst h
          have hpc' : r.procedureCode = CODE_SUPERVISION_1 := by
            simpa using hpc
          cases b1 <;> cases b2 <;> cases b4 <;> cases hf : forbiddenLoc r <;>
            simp [hb1, hb2, hb4, hf, hpc', List.mem_append]

/-- A successful row pass yields a successful per-row check for every
row. -/
theorem rowChecks_ok_of_rowPass (rows : List Row) (L : List Issue) (r : Row)
    (h : rowPass rows = .ok L) (hr : r ∈ rows) : ∃ l, rowChecks r = .ok l := by
  induction rows generalizing L with
  | nil => cases hr
  | cons a rs ih =>
    unfold rowPass at h
    cases ha : rowChecks a with
    | error e => rw [ha] at h; exact absurd h (by simp)
    | ok l =>
      rw [ha] at h
      cases hrs : rowPass rs with
      | error e => rw [hrs] at h; exact absurd h (by simp)
      | ok ls =>
        rcases List.mem_cons.mp hr with rfl | hr'
        · exact ⟨l, ha⟩
        · exact ih ls hrs hr'

/-- Membership in the row-pass output, characterised row by row. -/
theorem rowPass_ok_mem (rows : List Row) (L : List Issue)
    (h : rowPass rows = .ok L) (i : Issue) :
    i ∈ L ↔ ∃ r ∈ rows, ∃ l, rowChecks r = .ok l ∧ i ∈ l := by
  induction rows generalizing L with
  | nil =>
    unfold rowPass at h
    simp only [Except.ok.injEq] at h
    subst h; simp
  | cons a rs ih =>
    unfold rowPass at h
    cases ha : rowChecks a with
    | error e => rw [ha] at h; exact absurd h (by simp)
    | ok l =>
      rw [ha] at h
      cases hrs : rowPass rs with
      | error e => rw [hrs] at h; exact absurd h (by simp)
      | ok ls =>
        rw [hrs] at h
        simp only [Except.ok.injEq] at h
        subst h
        constructor
        · intro hm
          rcases List.mem_append.mp hm with hm | hm
          · exact ⟨a, List.mem_cons_self a rs, l, ha, hm⟩
          · rcases (ih ls hrs).mp hm with ⟨r, hr, l', hl', hi⟩
            exact ⟨r, List.mem_cons_of_mem a hr, l', hl', hi⟩
        · rintro ⟨r, hr, l', hl', hi⟩
          rcases List.mem_cons.mp hr with rfl | hr'
          · rw [ha] at hl'
            simp only [Except.ok.injEq] at hl'
            subst hl'
            exact List.mem_append.mpr (Or.inl hi)
          · exact List.mem_append.mpr (Or.inr ((ih ls hrs).mpr ⟨r, hr', l', hl', hi⟩))

/-- C2: for every supervision pair and every row with the supervising
code, the overlap test is strict open-interval intersection, so a
same-client target row whose interval merely touches an endpoint does
not count as overlapping, and when no same-client target row strictly
overlaps, a No Overlap issue for the supervising code is emitted for
that supervising row. -/
theorem spec_C2 (sc tc : Rat) (rows : List Row) (sup t : Row) :
    (overlapPred sup t = true ↔
      (t.clientName = sup.clientName ∧ t.timeWorkedFrom < sup.timeWorkedTo ∧
        sup.timeWorkedFrom < t.timeWorkedTo))
    ∧ ((t.timeWorkedTo = sup.timeWorkedFrom ∨ t.timeWorkedFrom = sup.timeWorkedTo) →
        overlapPred sup t = false)
    ∧ (sup ∈ rows → sup.procedureCode = sc →
        (∀ u ∈ rows, u.procedureCode = tc → overlapPred sup u = false) →
        noOverlapIssue sc tc sup ∈ (overlapPairPass sc tc rows).1) := by
  refine ⟨?_, ?_, ?_⟩
  · simp [overlapPred, and_assoc]
  · rintro (h | h) <;> simp [overlapPred, h]
  · intro hmem hcode hnone
    unfold overlapPairPass
    simp only [List.mem_flatMap]
    refine ⟨sup, ?_, ?_⟩
    · exact List.mem_filter.mpr ⟨hmem, by simp [hcode]⟩
    · have hempty : (rows.filter (fun r => r.procedureCode == tc)).filter (overlapPred sup) = [] := by
        refine List.filter_eq_nil_iff.mpr ?_
        intro u hu
        rcases List.mem_filter.mp hu with ⟨hu', hc⟩
        simp [hnone u hu' (by simpa using hc)]
      rw [hempty]
      simp

/-- Witness for C2 at a concrete table: the supervising row with no
target rows is flagged. -/
theorem spec_C2_witness :
    noOverlapIssue 97155 97153 w2row ∈ (overlapPairPass 97155 97153 [w2row]).1 :=
  (spec_C2 97155 97153 [w2row] w2row w2row).2.2 (by simp) (by decide) (by decide)

/-- C5: a Supervision > 2 Hours issue is emitted by the per-row checks
of a row exactly when its procedure code is 97155 and its worked hours
exceed 2; rows with any other code never trigger this rule. -/
theorem spec_C5 (r : Row) (l : List Issue) (h : rowChecks r = .ok l) :
    supervisionIssue r ∈ l ↔
      (r.procedureCode = CODE_SUPERVISION_1 ∧
        cellGT r.timeWorkedInHours MAX_SUPERVISION_HOURS = .ok true) := by
  rw [rowChecks_ok_mem r l h (supervisionIssue r)]
  constructor
  · rintro (⟨he, _⟩ | ⟨_, hc⟩ | ⟨he, _⟩ | ⟨he, _⟩)
    · exact absurd he (by simp [supervisionIssue, sessionIssue])
    · exact hc
    · exact absurd he (by simp [supervisionIssue, locationIssue])
    · exact absurd he (by simp [supervisionIssue, travelIssue])
  · intro hc
    exact Or.inr (Or.inl ⟨rfl, hc⟩)

/-- Witness for C5 at a concrete row: 3 supervised hours trigger the
issue. -/
theorem spec_C5_witness :
    supervisionIssue w5row ∈ [supervisionIssue w5row] :=
  (spec_C5 w5row [supervisionIssue w5row] rfl).mpr ⟨rfl, rfl⟩

/-! ## Structure lemmas for the note engine -/

/-- The single issue the Tax ID rule can emit. -/
theorem taxRule_mem (num : Nat) (note : String) (i : NoteIssue)
    (h : i ∈ taxRule num note) : i = ⟨num, .missingTaxId, .taxNotFound⟩ := by
  unfold taxRule at h
  split at h
  · exact absurd h (by simp)
  · simpa using h

/-- The single issue the CPT rule can emit. -/
theorem cptRule_mem (num : Nat) (note : String) (i : NoteIssue)
    (h : i ∈ cptRule num note) : i = ⟨num, .missingCpt, .noCodeInText⟩ := by
  unfold cptRule at h
  split at h
  · exact absurd h (by simp)
  · simpa using h

/-- The single issue the participants rule can emit. -/
theorem participantsRule_mem (num : Nat) (note : String) (i : NoteIssue)
    (h : i ∈ participantsRule num note) : i = ⟨num, .participantsUnchecked, .noCheckboxes⟩ := by
  unfold participantsRule at h
  split at h
  · simpa using h
  · exact absurd h (by simp)

/-- The single issue the signature rule can emit. -/
theorem signatureRule_mem (num : Nat) (note : String) (i : NoteIssue)
    (h : i ∈ signatureRule num note) : i = ⟨num, .missingSignature, .noSignature⟩ := by
  unfold signatureRule at h
  split at h
  · exact absurd h (by simp)
  · simpa using h

/-- The two mutually exclusive issues the data-point rule can emit. -/
theorem dataPointRule_mem (num : Nat) (note : String) (i : NoteIssue)
    (h : i ∈ dataPointRule num note) :
    ((goalLines note).length < 1 ∧ i = ⟨num, .noDataPoints, .goalSummaryEmpty⟩) ∨
    (¬ (goalLines note).length < 1 ∧
      i = ⟨num, .duplicateGoals, .goalsRepeated (dupsOf (goalLines note))⟩) := by
  unfold dataPointRule at h
  by_cases hlen : (goalLines note).length < 1
  · rw [if_pos hlen] at h
    exact Or.inl ⟨hlen, by simpa using h⟩
  · rw [if_neg hlen] at h
    split at h
    · exact Or.inr ⟨hlen, by simpa using h⟩
    · exact absurd h (by simp)

/-- Every issue of a segment carries that segment's note index. -/
theorem noteChecks_noteNum (num : Nat) (note : String) (i : NoteIssue)
    (h : i ∈ noteChecks num note) : i.noteNum = num := by
  unfold noteChecks at h
  split at h
  · simp only [List.mem_append] at h
    rcases h with (((h | h) | h) | h) | h
    · rw [taxRule_mem num note i h]
    · rw [cptRule_mem num note i h]
    · rw [participantsRule_mem num note i h]
    · rcases dataPointRule_mem num note i h with ⟨_, h2⟩ | ⟨_, h2⟩ <;> rw [h2]
    · rw [signatureRule_mem num note i h]
  · exact absurd h (by simp)

/-- The data-point rule emits No Data Points only on an empty capture
list and Duplicate Goals only on a nonempty one. -/
theorem noteChecks_datapoint_kinds (num : Nat) (note : String) (i : NoteIssue)
    (h : i ∈ noteChecks num note) :
    (i.kind = NoteKind.noDataPoints → (goalLines note).length < 1) ∧
    (i.kind = NoteKind.duplicateGoals → ¬ (goalLines note).length < 1) := by
  unfold noteChecks at h
  split at h
  · simp only [List.mem_append] at h
    rcases h with (((h | h) | h) | h) | h
    · rw [taxRule_mem num note i h]; simp
    · rw [cptRule_mem num note i h]; simp
    · rw [participantsRule_mem num note i h]; simp
    · rcases dataPointRule_mem num note i h with ⟨hlen, h2⟩ | ⟨hlen, h2⟩ <;>
        rw [h2] <;> simp [hlen]
    · rw [signatureRule_mem num note i h]; simp
  · exact absurd h (by simp)

/-- Membership in the numbered segment walk, characterised by segment
position. -/
theorem notesPass_mem (frags : List String) (n : Nat) (i : NoteIssue) :
    i ∈ notesPass n frags ↔
      ∃ j seg, frags[j]? = some seg ∧ i ∈ noteChecks (n + j) seg := by
  induction frags generalizing n with
  | nil => simp [notesPass]
  | cons seg rest ih =>
    simp only [notesPass, List.mem_append, ih]
    constructor
    · rintro (h | ⟨j, sg, hj, hi⟩)
      · exact ⟨0, seg, by simp, by simpa using h⟩
      · refine ⟨j + 1, sg, by simpa using hj, ?_⟩
        have : n + (j + 1) = n + 1 + j := by omega
        rw [this]; exact hi
    · rintro ⟨j, sg, hj, hi⟩
      cases j with
      | zero =>
        simp only [List.getElem?_cons_zero, Option.some.injEq] at hj
        subst hj
        exact Or.inl (by simpa using hi)
      | succ j =>
        refine Or.inr ⟨j, sg, by simpa using hj, ?_⟩
        have : n + 1 + j = n + (j + 1) := by omega
        rw [this]; exact hi

/-- C9: a qualifying note segment generates at most five issues, the No
Data Points and Duplicate Goals issues are never both emitted for the
same segment, and a segment lacking both qualifying markers is skipped
with zero issues. -/
theorem spec_C9 (num : Nat) (note : String) :
    (noteChecks num note).length ≤ 5
    ∧ ¬ ((∃ i ∈ noteChecks num note, i.kind = NoteKind.noDataPoints) ∧
         (∃ i ∈ noteChecks num note, i.kind = NoteKind.duplicateGoals))
    ∧ (noteGate note = false → noteChecks num note = []) := by
  refine ⟨?_, ?_, ?_⟩
  · have b1 : (taxRule num note).length ≤ 1 := by unfold taxRule; split <;> simp
    have b2 : (cptRule num note).length ≤ 1 := by unfold cptRule; split <;> simp
    have b3 : (participantsRule num note).length ≤ 1 := by
      unfold participantsRule; split <;> simp
    have b4 : (dataPointRule num note).length ≤ 1 := by
      unfold dataPointRule
      split
      · simp
      · split <;> simp
    have b5 : (signatureRule num note).length ≤ 1 := by
      unfold signatureRule; split <;> simp
    unfold noteChecks
    split
    · simp only [List.length_append]
      omega
    · simp
  · rintro ⟨⟨i, hi, hik⟩, ⟨j, hj, hjk⟩⟩
    exact absurd ((noteChecks_datapoint_kinds num note i hi).1 hik)
      ((noteChecks_datapoint_kinds num note j hj).2 hjk)
  · intro hg
    unfold noteChecks
    rw [hg]
    simp

/-- Witness for C9 at a concrete segment: a segment without either
marker produces no issues. -/
theorem spec_C9_witness : noteChecks 1 "hello" = [] :=
  (spec_C9 1 "hello").2.2 (by decide)

/-- C10: the note index attached to each note issue is the 1-based
position of the issue's fragment among all fragments following the
first delimiter, in document order; skipped fragments still advance the
numbering because the walk numbers every fragment. -/
theorem spec_C10 :
    (∀ (n : Nat) (s : String) (i : NoteIssue), i ∈ noteChecks n s → i.noteNum = n)
    ∧ (∀ (text : String) (i : NoteIssue),
        i ∈ scrub_session_notes text ↔
          (1 ≤ i.noteNum ∧
           ∃ seg, ((splitOnStr text "Activity Statement").drop 1)[i.noteNum - 1]? = some seg ∧
             i ∈ noteChecks i.noteNum seg)) := by
  refine ⟨noteChecks_noteNum, ?_⟩
  intro text i
  unfold scrub_session_notes
  rw [notesPass_mem]
  constructor
  · rintro ⟨j, seg, hj, hi⟩
    have hnum : i.noteNum = 1 + j := noteChecks_noteNum _ _ _ hi
    refine ⟨by omega, seg, ?_, ?_⟩
    · have : i.noteNum - 1 = j := by omega
      rw [this]; exact hj
    · rw [hnum]; exact hi
  · rintro ⟨h1, seg, hs, hi⟩
    refine ⟨i.noteNum - 1, seg, hs, ?_⟩
    have : 1 + (i.noteNum - 1) = i.noteNum := by omega
    rw [this]; exact hi

/-- Witness for C10 at the concrete document: the issue of the first
fragment is in the scrub output. -/
theorem spec_C10_witness : w10issue ∈ scrub_session_notes w10text :=
  (spec_C10.2 w10text w10issue).mpr
    ⟨by decide, "Goal Summary", by decide, by decide⟩

/-! ## The is_supervised marking -/

/-- The overlap filter never reads the supervised flag of the target. -/
theorem overlapPred_setSup (s r : Row) : overlapPred s (setSup r) = overlapPred s r := rfl

/-- A fold whose step never changes the accumulator is the identity. -/
theorem foldl_of_step_id {α β : Type} (f : α → β → α) (hf : ∀ a b, f a b = a) :
    ∀ (l : List β) (a : α), l.foldl f a = a := by
  intro l
  induction l with
  | nil => intro a; rfl
  | cons b bs ih => intro a; rw [List.foldl_cons, hf]; exact ih a

/-- A pair whose supervising code is not 97155 never marks: the marking
fold leaves the table unchanged. -/
theorem overlapPairPass_snd_of_ne (sc tc : Rat) (rows : List Row)
    (h : (sc == CODE_SUPERVISION_1) = false) :
    (overlapPairPass sc tc rows).2 = rows := by
  unfold overlapPairPass
  exact foldl_of_step_id _ (fun a b => by simp only [h]; split <;> rfl) _ rows

/-- Marking one more supervising row extends the per-prefix map by that
row, whatever the flags already are. -/
theorem markRows_markAcc (tc : Rat) (sup : Row) (rows : List Row) (S : List Row) :
    markRows tc sup (rows.map (markAcc tc S)) = rows.map (markAcc tc (S ++ [sup])) := by
  unfold markRows
  rw [List.map_map]
  refine List.map_congr_left ?_
  intro r _
  simp only [Function.comp_apply, markAcc]
  by_cases hc : (r.procedureCode == tc) = true
  · by_cases hS : S.any (fun s => overlapPred s r) = true
    · simp only [hc, hS, Bool.and_self, if_pos, Bool.true_and, if_true]
      by_cases hp : overlapPred sup r = true
      · simp [setSup, hc, hp, hS]
      · simp [setSup, hc, hp, hS]
    · simp only [hc, hS, Bool.true_and, if_false, Bool.false_eq_true]
      by_cases hp : overlapPred sup r = true
      · simp [hc, hp, hS, setSup]
      · simp [hc, hp, hS]
  · simp only [Bool.not_eq_true] at hc
    simp [hc, markAcc]

/-- When no target row overlaps the supervising row, marking it is the
identity on any flag variant of the table. -/
theorem markRows_id_of_empty (tc : Rat) (sup : Row) (rows : List Row) (S : List Row)
    (hemp : ∀ r ∈ rows, (r.procedureCode == tc && overlapPred sup r) = false) :
    markRows tc sup (rows.map (markAcc tc S)) = rows.map (markAcc tc S) := by
  unfold markRows
  rw [List.map_map]
  refine List.map_congr_left ?_
  intro r hr
  simp only [Function.comp_apply, markAcc]
  have h := hemp r hr
  by_cases hc : (r.procedureCode == tc) = true
  · simp only [hc, Bool.true_and] at h
    split <;> simp [hc, h, setSup]
  · simp only [Bool.not_eq_true] at hc
    simp [hc]

/-- Appending a supervising row without overlaps to the prefix does not
change the per-prefix map. -/
theorem markAcc_append_of_empty (tc : Rat) (sup : Row) (rows : List Row) (S : List Row)
    (hemp : ∀ r ∈ rows, (r.procedureCode == tc && overlapPred sup r) = false) :
    rows.map (markAcc tc (S ++ [sup])) = rows.map (markAcc tc S) := by
  rw [← markRows_markAcc, markRows_id_of_empty tc sup rows S hemp]

/-- The marking fold of the 97155 pair, characterised as a map: after
processing a list of supervising rows, a row is marked exactly when it
has the target code and one of them overlaps it. -/
theorem markFoldAux (tc : Rat) (tR rows : List Row)
    (hemp : ∀ sup r, (tR.filter (overlapPred sup)).isEmpty = true → r ∈ rows →
        (r.procedureCode == tc && overlapPred sup r) = false) :
    ∀ (sups : List Row) (S : List Row),
      sups.foldl (fun rs sup =>
          if (tR.filter (overlapPred sup)).isEmpty then rs
          else if CODE_SUPERVISION_1 == CODE_SUPERVISION_1 then markRows tc sup rs else rs)
        (rows.map (markAcc tc S))
      = rows.map (markAcc tc (S ++ sups)) := by
  intro sups
  induction sups with
  | nil => intro S; simp
  | cons sup rest ih =>
    intro S
    rw [List.foldl_cons]
    by_cases he : (tR.filter (overlapPred sup)).isEmpty = true
    · rw [if_pos he, ih S]
      refine List.map_congr_left ?_
      intro r hr
      have h4 := hemp sup r he hr
      unfold markAcc
      by_cases hc : (r.procedureCode == tc) = true
      · simp only [hc, Bool.true_and] at h4
        simp [hc, h4, List.any_append]
      · simp only [Bool.not_eq_true] at hc
        simp [hc]
    · rw [if_neg he, if_pos (by simp), markRows_markAcc]
      have h5 := ih (S ++ [sup])
      simpa using h5

/-- The marked table of the 97155 pair, characterised as a map over the
input: a row is marked exactly when it has the target code and some
97155 row overlaps it. -/
theorem overlapPairPass_snd_mark (tc : Rat) (rows : List Row) :
    (overlapPairPass CODE_SUPERVISION_1 tc rows).2 =
      rows.map (fun r =>
        if r.procedureCode == tc &&
            rows.any (fun s => s.procedureCode == CODE_SUPERVISION_1 && overlapPred s r)
        then setSup r else r) := by
  have hemp : ∀ sup r,
      ((rows.filter (fun x => x.procedureCode == tc)).filter (overlapPred sup)).isEmpty = true →
      r ∈ rows → (r.procedureCode == tc && overlapPred sup r) = false := by
    intro sup r he hr
    rw [List.isEmpty_iff] at he
    by_cases hc : (r.procedureCode == tc) = true
    · have hrT : r ∈ rows.filter (fun x => x.procedureCode == tc) :=
        List.mem_filter.mpr ⟨hr, hc⟩
      have hnp := (List.filter_eq_nil_iff.mp he) r hrT
      simp only [Bool.not_eq_true] at hnp
      simp [hc, hnp]
    · simp only [Bool.not_eq_true] at hc
      simp [hc]
  have h0 : rows.map (markAcc tc []) = rows := by
    have h1 : ∀ r ∈ rows, markAcc tc [] r = id r := by
      intro r _; simp [markAcc]
    rw [List.map_congr_left h1, List.map_id]
  have hm := markFoldAux tc (rows.filter (fun x => x.procedureCode == tc)) rows hemp
    (rows.filter (fun r => r.procedureCode == CODE_SUPERVISION_1)) []
  rw [h0] at hm
  simp only [List.nil_append] at hm
  simp only [overlapPairPass]
  rw [hm]
  refine List.map_congr_left ?_
  intro r _
  unfold markAcc
  rw [List.any_filter]

/-- C3: every normalized row starts with is_supervised false, and the
final table of the overlap pass is exactly the input with the rows
satisfying the 97155 marking condition set supervised, so the overlap
check is the only operation that ever sets the flag and only under that
condition. -/
theorem spec_C3 :
    (∀ (codes : List Rat) (clients providers : List String) (fs ts ds : List Int)
        (hcs dcs lcs lds : List Cell) (r : Row),
        r ∈ mkRows codes clients providers fs ts ds hcs dcs lcs lds →
        r.is_supervised = false)
    ∧ (∀ rows : List Row,
        (overlapPass rows).2 = rows.map (fun r => if supMarkCond rows r then setSup r else r)) := by
  constructor
  · intro codes clients providers fs ts ds hcs dcs lcs lds r hr
    unfold mkRows at hr
    rcases List.mem_map.mp hr with ⟨i, _, hEq⟩
    rw [← hEq]
    rfl
  · intro rows
    have h1 : (overlapPass rows).2 =
        (overlapPairPass 96156 96159 ((overlapPairPass 97155 97153 rows).2)).2 := by
      simp [overlapPass, SUPERVISION_PAIRS]
    rw [h1, overlapPairPass_snd_of_ne 96156 96159 _ (by decide)]
    have h2 : (97155 : Rat) = CODE_SUPERVISION_1 := rfl
    rw [h2, overlapPairPass_snd_mark 97153 rows]
    rfl

/-- Witness for C3 at concrete inputs: a freshly built row is not
supervised and the overlap pass on a one-row table realises the marking
map. -/
theorem spec_C3_witness :
    (mkRow 97153 "A" "P" 0 60 7200 Cell.na Cell.na (Cell.s "") (Cell.s "")).is_supervised = false
    ∧ (overlapPass [w3row]).2 =
        [w3row].map (fun r => if supMarkCond [w3row] r then setSup r else r) :=
  ⟨spec_C3.1 [97153] ["A"] ["P"] [0] [60] [7200] [Cell.na] [Cell.na] [Cell.s ""] [Cell.s ""]
      (mkRow 97153 "A" "P" 0 60 7200 Cell.na Cell.na (Cell.s "") (Cell.s "")) (by decide),
   spec_C3.2 [w3row]⟩

/-! ## Fatal-input behaviour of the normalizer -/

/-- A column with an unparseable cell fails to parse as a whole. -/
theorem parseCells_none (cs : List Cell) (h : ∃ c ∈ cs, toDatetime c = none) :
    parseCells cs = none := by
  induction cs with
  | nil => simp at h
  | cons c rest ih =>
    rcases h with ⟨d, hd, hnone⟩
    rcases List.mem_cons.mp hd with rfl | hmem
    · unfold parseCells
      rw [hnone]
    · unfold parseCells
      rw [ih ⟨d, hmem, hnone⟩]
      cases toDatetime c <;> rfl

/-- C1: when the stages before the date try-block succeed but one of the
three timestamp columns contains an unparseable cell, the whole billing
scrub returns the single Date Error diagnostic: no rule pass runs and no
row-level issue list is produced. -/
theorem spec_C1 (t0 t1 : RawTable) (codes : List Rat)
    (clients providers : List String) (dcol : String) (cs : List Cell)
    (h1 : dropStage (stripCols t0) = .ok (t1, codes))
    (h2 : namesFrom t1 "Client Name" "ClientFirstName" "ClientLastName" = .ok clients)
    (h3 : namesFrom t1 "Provider Name" "ProviderFirstName" "ProviderLastName" = .ok providers)
    (h4 : dcol ∈ (["TimeWorkedFrom", "TimeWorkedTo", "DateOfService"] : List String))
    (h5 : colCells t1 dcol = .ok cs)
    (h6 : ∃ c ∈ cs, toDatetime c = none) :
    ∃ m, scrub_billing_data t0 = .dateError m := by
  have hd : parseDateCol t1 dcol = .error dcol := by
    unfold parseDateCol
    simp only [h5]
    rw [parseCells_none cs h6]
  have hA : ∃ m, dateCols t1 = .error m := by
    simp only [List.mem_cons, List.not_mem_nil, or_false] at h4
    rcases h4 with rfl | rfl | rfl
    · exact ⟨_, by unfold dateCols; rw [hd]⟩
    · cases hf : parseDateCol t1 "TimeWorkedFrom" with
      | error m => exact ⟨m, by unfold dateCols; rw [hf]⟩
      | ok fs => exact ⟨_, by unfold dateCols; rw [hf, hd]⟩
    · cases hf : parseDateCol t1 "TimeWorkedFrom" with
      | error m => exact ⟨m, by unfold dateCols; rw [hf]⟩
      | ok fs =>
        cases ht : parseDateCol t1 "TimeWorkedTo" with
        | error m => exact ⟨m, by unfold dateCols; rw [hf, ht]⟩
        | ok ts => exact ⟨_, by unfold dateCols; rw [hf, ht, hd]⟩
  obtain ⟨m, hm⟩ := hA
  exact ⟨m, by simp only [scrub_billing_data, h1, h2, h3, hm]⟩

/-- Witness for C1 at the concrete table: the scrub degenerates to the
Date Error diagnostic. -/
theorem spec_C1_witness : ∃ m, scrub_billing_data w1table = .dateError m :=
  spec_C1 w1table w1table [97153] ["Ann B"] ["Pat Q"] "TimeWorkedFrom" [Cell.s "xx"]
    rfl rfl rfl (by decide) rfl ⟨Cell.s "xx", by decide, rfl⟩

/-- Accessing a column that is not in the table is a KeyError. -/
theorem colCells_error_of_not_mem (t : RawTable) (c : String) (h : c ∉ t.cols) :
    colCells t c = .error c := by
  unfold colCells
  have hf : t.cols.findIdx? (fun x => x == c) = none := by
    rw [List.findIdx?_eq_none_iff]
    intro x hx
    by_cases hxc : x = c
    · exact absurd (hxc ▸ hx) h
    · simp [hxc]
  rw [hf]

/-- The surviving subtable keeps the column names. -/
theorem dropStage_cols (t : RawTable) (p : RawTable × List Rat)
    (h : dropStage t = .ok p) : p.1.cols = t.cols := by
  unfold dropStage at h
  cases hcc : colCells t "ProcedureCode" with
  | error c => rw [hcc] at h; exact absurd h (by simp)
  | ok codeCells =>
    rw [hcc] at h
    simp only [Except.ok.injEq] at h
    rw [← h]

/-- A missing timestamp column makes the date try-block fail. -/
theorem dateCols_error_of_missing (t1 : RawTable) (c : String)
    (h4 : c ∈ (["TimeWorkedFrom", "TimeWorkedTo", "DateOfService"] : List String))
    (h : c ∉ t1.cols) : ∃ m, dateCols t1 = .error m := by
  have hd : parseDateCol t1 c = .error c := by
    unfold parseDateCol
    rw [colCells_error_of_not_mem t1 c h]
  simp only [List.mem_cons, List.not_mem_nil, or_false] at h4
  rcases h4 with rfl | rfl | rfl
  · exact ⟨_, by unfold dateCols; rw [hd]⟩
  · cases hf : parseDateCol t1 "TimeWorkedFrom" with
    | error m => exact ⟨m, by unfold dateCols; rw [hf]⟩
    | ok fs => exact ⟨_, by unfold dateCols; rw [hf, hd]⟩
  · cases hf : parseDateCol t1 "TimeWorkedFrom" with
    | error m => exact ⟨m, by unfold dateCols; rw [hf]⟩
    | ok fs =>
      cases ht : parseDateCol t1 "TimeWorkedTo" with
      | error m => exact ⟨m, by unfold dateCols; rw [hf, ht]⟩
      | ok ts => exact ⟨_, by unfold dateCols; rw [hf, ht, hd]⟩

/-- C7 counterexample: a table missing the required TimeWorkedInHours
column whose run does not abort: with no surviving rows the row loop
never touches the column, and the scrub returns an ordinary empty issue
report instead of a single diagnostic. -/
theorem spec_C7_counterexample :
    "TimeWorkedInHours" ∈ requiredColumns
    ∧ "TimeWorkedInHours" ∉ (stripCols w7empty).cols
    ∧ scrub_billing_data w7empty = .report [] := by
  refine ⟨by decide, by decide, ?_⟩
  rfl

/-- C7 as amended: a missing ProcedureCode or timestamp column always
aborts the run to a single diagnostic, while a missing TimeWorkedInHours
or DriveTimeInMinutes column aborts exactly on the runs where at least
one row survives the procedure-code coercion; with no surviving rows the
run completes normally. -/
theorem spec_C7 :
    (∀ t : RawTable, "ProcedureCode" ∉ (stripCols t).cols →
        (scrub_billing_data t).isAbort = true)
    ∧ (∀ (t : RawTable) (c : String),
        c ∈ (["TimeWorkedFrom", "TimeWorkedTo", "DateOfService"] : List String) →
        c ∉ (stripCols t).cols → (scrub_billing_data t).isAbort = true)
    ∧ (∀ (t : RawTable) (c : String),
        c ∈ (["TimeWorkedInHours", "DriveTimeInMinutes"] : List String) →
        c ∉ (stripCols t).cols → survivors t ≠ [] →
        (scrub_billing_data t).isAbort = true) := by
  refine ⟨?_, ?_, ?_⟩
  · intro t h
    have hds : dropStage (stripCols t) = .error "ProcedureCode" := by
      unfold dropStage
      rw [colCells_error_of_not_mem (stripCols t) _ h]
    simp [scrub_billing_data, hds, ScrubResult.isAbort]
  · intro t c h4 h
    cases hds : dropStage (stripCols t) with
    | error m => simp [scrub_billing_data, hds, ScrubResult.isAbort]
    | ok p =>
      obtain ⟨t1, codes⟩ := p
      have hcols : t1.cols = (stripCols t).cols := dropStage_cols _ _ hds
      cases hn1 : namesFrom t1 "Client Name" "ClientFirstName" "ClientLastName" with
      | error m => simp [scrub_billing_data, hds, hn1, ScrubResult.isAbort]
      | ok cl =>
        cases hn2 : namesFrom t1 "Provider Name" "ProviderFirstName" "ProviderLastName" with
        | error m => simp [scrub_billing_data, hds, hn1, hn2, ScrubResult.isAbort]
        | ok pr =>
          obtain ⟨m, hm⟩ := dateCols_error_of_missing t1 c h4 (by rw [hcols]; exact h)
          simp [scrub_billing_data, hds, hn1, hn2, hm, ScrubResult.isAbort]
  · intro t c h4 h hsv
    cases hds : dropStage (stripCols t) with
    | error m =>
      exfalso
      apply hsv
      unfold survivors
      rw [hds]
    | ok p =>
      obtain ⟨t1, codes⟩ := p
      have hcells : t1.cells ≠ [] := by
        intro hc
        apply hsv
        unfold survivors
        rw [hds]
        exact hc
      have hcols : t1.cols = (stripCols t).cols := dropStage_cols _ _ hds
      have hne : c ∉ t1.cols := by rw [hcols]; exact h
      cases hn1 : namesFrom t1 "Client Name" "ClientFirstName" "ClientLastName" with
      | error m => simp [scrub_billing_data, hds, hn1, ScrubResult.isAbort]
      | ok cl =>
        cases hn2 : namesFrom t1 "Provider Name" "ProviderFirstName" "ProviderLastName" with
        | error m => simp [scrub_billing_data, hds, hn1, hn2, ScrubResult.isAbort]
        | ok pr =>
          cases hdc : dateCols t1 with
          | error m => simp [scrub_billing_data, hds, hn1, hn2, hdc, ScrubResult.isAbort]
          | ok dts =>
            simp only [List.mem_cons, List.not_mem_nil, or_false] at h4
            rcases h4 with rfl | rfl
            · have hrc : reqRowCol t1 "TimeWorkedInHours" = .error "TimeWorkedInHours" := by
                unfold reqRowCol
                rw [colCells_error_of_not_mem t1 _ hne]
                simp [List.isEmpty_iff, hcells]
              simp [scrub_billing_data, hds, hn1, hn2, hdc, hrc, ScrubResult.isAbort]
            · cases hrc1 : reqRowCol t1 "TimeWorkedInHours" with
              | error m =>
                simp [scrub_billing_data, hds, hn1, hn2, hdc, hrc1, ScrubResult.isAbort]
              | ok hcs =>
                have hrc2 : reqRowCol t1 "DriveTimeInMinutes" = .error "DriveTimeInMinutes" := by
                  unfold reqRowCol
                  rw [colCells_error_of_not_mem t1 _ hne]
                  simp [List.isEmpty_iff, hcells]
                simp [scrub_billing_data, hds, hn1, hn2, hdc, hrc1, hrc2, ScrubResult.isAbort]

/-- Witness for the amended C7 at concrete tables: a missing
ProcedureCode column aborts, and a missing DriveTimeInMinutes column
aborts when a row survives. -/
theorem spec_C7_witness :
    (scrub_billing_data (⟨["Client Name"], []⟩ : RawTable)).isAbort = true
    ∧ (scrub_billing_data w7drive).isAbort = true :=
  ⟨spec_C7.1 ⟨["Client Name"], []⟩ (by decide),
   spec_C7.2.2 w7drive "DriveTimeInMinutes" (by decide) (by decide) (by decide)⟩

/-! ## Shape lemmas for the remaining passes -/

/-- Every issue of one group check is one of the four group issues of
that group's key. -/
theorem groupChecksFor_shape (rows : List Row) (k : String × Int) (i : Issue)
    (h : i ∈ groupChecksFor rows k) :
    i = conflictIssue k
    ∨ (∃ b ∈ BASE_CODES, i = dupBaseIssue k b)
    ∨ (∃ p ∈ BASE_ADDON_PAIRS, i = orphanIssue k p.2)
    ∨ (∃ p ∈ BASE_ADDON_PAIRS, i = seqIssue k p.1) := by
  simp only [groupChecksFor, List.mem_append, List.mem_flatMap] at h
  rcases h with (h | h) | h
  · split at h
    · simp only [List.mem_singleton] at h
      exact Or.inl h
    · exact absurd h (by simp)
  · obtain ⟨b, hb, hi⟩ := h
    split at hi
    · simp only [List.mem_singleton] at hi
      exact Or.inr (Or.inl ⟨b, hb, hi⟩)
    · exact absurd hi (by simp)
  · obtain ⟨p, hp, hi⟩ := h
    split at hi
    · exact absurd hi (by simp)
    · split at hi
      · simp only [List.mem_singleton] at hi
        exact Or.inr (Or.inr (Or.inl ⟨p, hp, hi⟩))
      · split at hi
        · simp only [List.mem_singleton] at hi
          exact Or.inr (Or.inr (Or.inr ⟨p, hp, hi⟩))
        · exact absurd hi (by simp)

/-- Every issue of one supervision pair is a No Overlap issue of that
pair. -/
theorem overlapPairPass_fst_shape (sc tc : Rat) (rows : List Row) (i : Issue)
    (h : i ∈ (overlapPairPass sc tc rows).1) :
    ∃ sup, i = noOverlapIssue sc tc sup := by
  simp only [overlapPairPass, List.mem_flatMap] at h
  obtain ⟨sup, _, hi⟩ := h
  split at hi
  · simp only [List.mem_singleton] at hi
    exact ⟨sup, hi⟩
  · exact absurd hi (by simp)

/-- The issue list of the overlap pass, pair by pair. -/
theorem overlapPass_fst_eq (rows : List Row) :
    (overlapPass rows).1 =
      (overlapPairPass 97155 97153 rows).1 ++
        (overlapPairPass 96156 96159 (overlapPairPass 97155 97153 rows).2).1 := by
  simp [overlapPass, SUPERVISION_PAIRS]

/-- Every issue of the overlap pass is a No Overlap issue of one of the
configured pairs. -/
theorem overlapPass_fst_shape (rows : List Row) (i : Issue)
    (h : i ∈ (overlapPass rows).1) :
    ∃ p ∈ SUPERVISION_PAIRS, ∃ sup, i = noOverlapIssue p.1 p.2 sup := by
  rw [overlapPass_fst_eq] at h
  rcases List.mem_append.mp h with h | h
  · obtain ⟨sup, hi⟩ := overlapPairPass_fst_shape _ _ _ _ h
    exact ⟨(97155, 97153), by simp [SUPERVISION_PAIRS], sup, hi⟩
  · obtain ⟨sup, hi⟩ := overlapPairPass_fst_shape _ _ _ _ h
    exact ⟨(96156, 96159), by simp [SUPERVISION_PAIRS], sup, hi⟩

/-- Every issue of one client's monthly checks is one of the two monthly
issues of that client. -/
theorem monthlyChecksFor_shape (rows : List Row) (c : String) (i : Issue)
    (h : i ∈ monthlyChecksFor rows c) :
    i = parentTrainingIssue c ∨ ∃ p, i = rbtIssue c p := by
  simp only [monthlyChecksFor, List.mem_append, List.mem_flatMap] at h
  rcases h with h | h
  · split at h
    · exact absurd h (by simp)
    · simp only [List.mem_singleton] at h
      exact Or.inl h
  · obtain ⟨p, _, hi⟩ := h
    split at hi
    · exact absurd hi (by simp)
    · simp only [List.mem_singleton] at hi
      exact Or.inr ⟨p, hi⟩

/-- C4: for every row of the normalized table, the engine output
contains that row's Session > 4 Hours issue exactly when the row's
worked hours compare greater than 4; in particular no such issue exists
for a row whose worked hours do not exceed 4. -/
theorem spec_C4 (rows : List Row) (issues : List Issue) (r : Row)
    (hrun : runRules rows = .ok issues) (hr : r ∈ rows) :
    sessionIssue r ∈ issues ↔
      cellGT r.timeWorkedInHours MAX_SESSION_HOURS = .ok true := by
  unfold runRules at hrun
  cases hrp : rowPass rows with
  | error e => rw [hrp] at hrun; exact absurd hrun (by simp)
  | ok rowIss =>
    rw [hrp] at hrun
    simp only [Except.ok.injEq] at hrun
    subst hrun
    constructor
    · intro hm
      simp only [List.mem_append] at hm
      rcases hm with ((hm | hm) | hm) | hm
      · obtain ⟨r2, _, l, hl, hi⟩ := (rowPass_ok_mem rows rowIss hrp _).mp hm
        rcases (rowChecks_ok_mem r2 l hl _).mp hi with
          ⟨heq, hcell⟩ | ⟨heq, _, _⟩ | ⟨heq, _⟩ | ⟨heq, _⟩
        · have hcl : r.timeWorkedInHours = r2.timeWorkedInHours := by
            simp only [sessionIssue, Issue.mk.injEq, Detail.lastedHours.injEq] at heq
            exact heq.2.2.2.2
          rw [hcl]
          exact hcell
        · exact absurd heq (by simp [sessionIssue, supervisionIssue])
        · exact absurd heq (by simp [sessionIssue, locationIssue])
        · exact absurd heq (by simp [sessionIssue, travelIssue])
      · simp only [groupPass, List.mem_flatMap] at hm
        obtain ⟨k, _, hk⟩ := hm
        rcases groupChecksFor_shape rows k _ hk with
          heq | ⟨b, _, heq⟩ | ⟨p, _, heq⟩ | ⟨p, _, heq⟩
        · exact absurd heq (by simp [sessionIssue, conflictIssue])
        · exact absurd heq (by simp [sessionIssue, dupBaseIssue])
        · exact absurd heq (by simp [sessionIssue, orphanIssue])
        · exact absurd heq (by simp [sessionIssue, seqIssue])
      · obtain ⟨p, _, sup, heq⟩ := overlapPass_fst_shape rows _ hm
        exact absurd heq (by simp [sessionIssue, noOverlapIssue])
      · simp only [monthlyPass, List.mem_flatMap] at hm
        obtain ⟨cl, _, hk⟩ := hm
        rcases monthlyChecksFor_shape _ cl _ hk with heq | ⟨p, heq⟩
        · exact absurd heq (by simp [sessionIssue, parentTrainingIssue])
        · exact absurd heq (by simp [sessionIssue, rbtIssue])
    · intro hcell
      obtain ⟨l, hl⟩ := rowChecks_ok_of_rowPass rows rowIss r hrp hr
      have hmem : sessionIssue r ∈ rowIss :=
        (rowPass_ok_mem rows rowIss hrp _).mpr
          ⟨r, hr, l, hl, (rowChecks_ok_mem r l hl _).mpr (Or.inl ⟨rfl, hcell⟩)⟩
      simp only [List.mem_append]
      exact Or.inl (Or.inl (Or.inl hmem))

/-- Witness for C4 at a concrete one-row table: the 5-hour session issue
is in the engine output. -/
theorem spec_C4_witness :
    sessionIssue w4row ∈
      [sessionIssue w4row, parentTrainingIssue "A", rbtIssue "A" "P"] :=
  (spec_C4 [w4row] [sessionIssue w4row, parentTrainingIssue "A", rbtIssue "A" "P"]
      w4row rfl (by decide)).mpr rfl

/-- The count of one element over a flat map whose groups are pairwise
distinct keys: only the distinguished key's group can contribute. -/
theorem count_flatMap_single {α β : Type} [DecidableEq α] [DecidableEq β]
    (keys : List α) (g : α → List β) (x : β) (k0 : α)
    (hn : keys.Nodup) (hz : ∀ k ∈ keys, k ≠ k0 → (g k).count x = 0) :
    (keys.flatMap g).count x = if k0 ∈ keys then (g k0).count x else 0 := by
  induction keys with
  | nil => simp
  | cons k ks ih =>
    have hk1 := (List.nodup_cons.mp hn).1
    have hn2 := (List.nodup_cons.mp hn).2
    rw [List.flatMap_cons, List.count_append,
        ih hn2 (fun k2 hk2 hne => hz k2 (List.mem_cons_of_mem _ hk2) hne)]
    by_cases hk : k = k0
    · subst hk
      rw [if_neg hk1, if_pos (List.mem_cons_self _ _)]
      simp
    · rw [hz k (List.mem_cons_self _ _) hk]
      by_cases hmem : k0 ∈ ks
      · rw [if_pos hmem, if_pos (List.mem_cons_of_mem _ hmem)]
        simp
      · have hnc : k0 ∉ k :: ks := by
          intro hc
          rcases List.mem_cons.mp hc with h | h
          · exact hk h.symm
          · exact hmem h
        rw [if_neg hmem, if_neg hnc]

/-- A group key is listed exactly when some row carries it. -/
theorem mem_groupKeys (rows : List Row) (c : String) (d : Int) :
    (c, d) ∈ groupKeys rows ↔ ∃ r ∈ rows, r.clientName = c ∧ r.dateOnly = d := by
  unfold groupKeys
  rw [List.mem_dedup, List.mem_map]
  constructor
  · rintro ⟨r, hr, hk⟩
    unfold groupKey at hk
    exact ⟨r, hr, by rw [(Prod.mk.injEq _ _ _ _).mp hk |>.1],
      by rw [(Prod.mk.injEq _ _ _ _).mp hk |>.2]⟩
  · rintro ⟨r, hr, h1, h2⟩
    exact ⟨r, hr, by unfold groupKey; rw [h1, h2]⟩

/-- The duplicate-base count contributed by one group: one for the
group's own key when the base code repeats, zero otherwise. -/
theorem groupChecksFor_count_dup (rows : List Row) (c : String) (d : Int) (b : Rat)
    (hb : b ∈ BASE_CODES) :
    (groupChecksFor rows (c, d)).count (dupBaseIssue (c, d) b) =
      if 1 < countCodeInGroup rows c d b then 1 else 0 := by
  simp only [groupChecksFor]
  rw [List.count_append, List.count_append]
  have hc1 : (if ((rows.filter (fun r => r.clientName == (c, d).1 && r.dateOnly == (c, d).2)).map
        Row.procedureCode).contains CODE_DIRECT_CARE &&
          ((rows.filter (fun r => r.clientName == (c, d).1 && r.dateOnly == (c, d).2)).map
            Row.procedureCode).any (fun x => CODES_CONFLICT_WITH_DIRECT.contains x)
      then [conflictIssue (c, d)] else []).count (dupBaseIssue (c, d) b) = 0 := by
    split
    · rw [List.count_eq_zero]
      intro hm
      simp only [List.mem_singleton] at hm
      exact absurd hm (by simp [dupBaseIssue, conflictIssue])
    · rfl
  rw [hc1]
  have hc3 : (BASE_ADDON_PAIRS.flatMap (fun p =>
      if ((rows.filter (fun r => r.clientName == (c, d).1 && r.dateOnly == (c, d).2)).filter
            (fun r => r.procedureCode == p.2)).isEmpty then []
      else if ((rows.filter (fun r => r.clientName == (c, d).1 && r.dateOnly == (c, d).2)).filter
            (fun r => r.procedureCode == p.1)).isEmpty then [orphanIssue (c, d) p.2]
      else if minFrom ((rows.filter (fun r => r.clientName == (c, d).1 && r.dateOnly == (c, d).2)).filter
            (fun r => r.procedureCode == p.2)) <
          minFrom ((rows.filter (fun r => r.clientName == (c, d).1 && r.dateOnly == (c, d).2)).filter
            (fun r => r.procedureCode == p.1))
      then [seqIssue (c, d) p.1] else [])).count (dupBaseIssue (c, d) b) = 0 := by
    rw [List.count_eq_zero]
    intro hm
    simp only [List.mem_flatMap] at hm
    obtain ⟨p, _, hi⟩ := hm
    split at hi
    · exact absurd hi (by simp)
    · split at hi
      · simp only [List.mem_singleton] at hi
        exact absurd hi (by simp [dupBaseIssue, orphanIssue])
      · split at hi
        · simp only [List.mem_singleton] at hi
          exact absurd hi (by simp [dupBaseIssue, seqIssue])
        · exact absurd hi (by simp)
  rw [hc3]
  have hc2 : (BASE_CODES.flatMap (fun b2 =>
      if 1 < ((rows.filter (fun r => r.clientName == (c, d).1 && r.dateOnly == (c, d).2)).map
          Row.procedureCode).count b2
      then [dupBaseIssue (c, d) b2] else [])).count (dupBaseIssue (c, d) b) =
      if 1 < countCodeInGroup rows c d b then 1 else 0 := by
    rw [count_flatMap_single BASE_CODES _ _ b (by decide) ?hz]
    · rw [if_pos hb]
      show (if 1 < countCodeInGroup rows c d b then [dupBaseIssue (c, d) b] else []).count
          (dupBaseIssue (c, d) b) = if 1 < countCodeInGroup rows c d b then 1 else 0
      split
      · simp
      · rfl
    case hz =>
      intro b2 _ hne
      split
      · rw [List.count_eq_zero]
        intro hm
        simp only [List.mem_singleton] at hm
        simp only [dupBaseIssue, Issue.mk.injEq, IssueKind.duplicateBase.injEq] at hm
        exact hne hm.2.2.1.symm
      · rfl
  rw [hc2]
  simp

/-- C6: for every (client, date) group and base code, the engine output
contains exactly one Duplicate Base issue for that group and code when
the code occurs more than once in the group, however many occurrences
there are, and none when it occurs at most once. -/
theorem spec_C6 (rows : List Row) (issues : List Issue) (c : String) (d : Int) (b : Rat)
    (hrun : runRules rows = .ok issues) (hb : b ∈ BASE_CODES) :
    issues.count (dupBaseIssue (c, d) b) =
      if 1 < countCodeInGroup rows c d b then 1 else 0 := by
  unfold runRules at hrun
  cases hrp : rowPass rows with
  | error e => rw [hrp] at hrun; exact absurd hrun (by simp)
  | ok rowIss =>
    rw [hrp] at hrun
    simp only [Except.ok.injEq] at hrun
    subst hrun
    rw [List.count_append, List.count_append, List.count_append]
    have h1 : rowIss.count (dupBaseIssue (c, d) b) = 0 := by
      rw [List.count_eq_zero]
      intro hm
      obtain ⟨r2, _, l, hl, hi⟩ := (rowPass_ok_mem rows rowIss hrp _).mp hm
      rcases (rowChecks_ok_mem r2 l hl _).mp hi with
        ⟨heq, _⟩ | ⟨heq, _, _⟩ | ⟨heq, _⟩ | ⟨heq, _⟩
      · exact absurd heq (by simp [dupBaseIssue, sessionIssue])
      · exact absurd heq (by simp [dupBaseIssue, supervisionIssue])
      · exact absurd heq (by simp [dupBaseIssue, locationIssue])
      · exact absurd heq (by simp [dupBaseIssue, travelIssue])
    have h3 : (overlapPass rows).1.count (dupBaseIssue (c, d) b) = 0 := by
      rw [List.count_eq_zero]
      intro hm
      obtain ⟨p, _, sup, heq⟩ := overlapPass_fst_shape rows _ hm
      exact absurd heq (by simp [dupBaseIssue, noOverlapIssue])
    have h4 : (monthlyPass (overlapPass rows).2).count (dupBaseIssue (c, d) b) = 0 := by
      rw [List.count_eq_zero]
      intro hm
      simp only [monthlyPass, List.mem_flatMap] at hm
      obtain ⟨cl, _, hk⟩ := hm
      rcases monthlyChecksFor_shape _ cl _ hk with heq | ⟨p, heq⟩
      · exact absurd heq (by simp [dupBaseIssue, parentTrainingIssue])
      · exact absurd heq (by simp [dupBaseIssue, rbtIssue])
    have h2 : (groupPass rows).count (dupBaseIssue (c, d) b) =
        if 1 < countCodeInGroup rows c d b then 1 else 0 := by
      unfold groupPass
      rw [count_flatMap_single (groupKeys rows) _ _ (c, d) (List.nodup_dedup _) ?hz]
      · by_cases hmem : (c, d) ∈ groupKeys rows
        · rw [if_pos hmem, groupChecksFor_count_dup rows c d b hb]
        · rw [if_neg hmem]
          have hcc : ¬ 1 < countCodeInGroup rows c d b := by
            intro hgt
            apply hmem
            have hpos : 0 < countCodeInGroup rows c d b := by omega
            have hbmem : b ∈ (rows.filter
                (fun r => r.clientName == c && r.dateOnly == d)).map Row.procedureCode :=
              List.count_pos_iff.mp hpos
            obtain ⟨r, hrf, hcode⟩ := List.mem_map.mp hbmem
            have hrr := List.mem_filter.mp hrf
            rw [mem_groupKeys]
            have hpred := hrr.2
            simp only [Bool.and_eq_true, beq_iff_eq] at hpred
            exact ⟨r, hrr.1, hpred.1, hpred.2⟩
          rw [if_neg hcc]
      case hz =>
        intro k hk hne
        obtain ⟨k1, k2⟩ := k
        rw [List.count_eq_zero]
        intro hm
        rcases groupChecksFor_shape rows (k1, k2) _ hm with
          heq | ⟨b2, _, heq⟩ | ⟨p, _, heq⟩ | ⟨p, _, heq⟩
        · exact absurd heq (by simp [dupBaseIssue, conflictIssue])
        · simp only [dupBaseIssue, Issue.mk.injEq, IssueKind.duplicateBase.injEq,
            IssueDate.onDate.injEq, and_true] at heq
          exact hne (by rw [← heq.1, ← heq.2.1])
        · exact absurd heq (by simp [dupBaseIssue, orphanIssue])
        · exact absurd heq (by simp [dupBaseIssue, seqIssue])
    rw [h1, h2, h3, h4]
    simp

/-- Witness for C6 at a concrete table: billing 96158 twice yields
exactly one Duplicate Base issue. -/
theorem spec_C6_witness :
    [dupBaseIssue ("A", 5) 96158, parentTrainingIssue "A"].count
      (dupBaseIssue ("A", 5) 96158) = 1 :=
  (spec_C6 [w6row1, w6row2] [dupBaseIssue ("A", 5) 96158, parentTrainingIssue "A"]
      "A" 5 96158 rfl (by decide)).trans (by decide)

/-! ## Stability of the engine under its own marking

The only state the engine carries across passes is the is_supervised
flag.  A flag-only function returns each row either unchanged or with
the flag set; the marking map of the overlap pass is such a function,
every pass but the monthly one is invariant under flag-only maps of its
input, and re-marking an already marked table is the identity. -/

/-- The marked table of the overlap pass, as one standalone equation. -/
theorem overlapPass_snd_eq (rows : List Row) :
    (overlapPass rows).2 = rows.map (fun r => if supMarkCond rows r then setSup r else r) := by
  have h1 : (overlapPass rows).2 =
      (overlapPairPass 96156 96159 ((overlapPairPass 97155 97153 rows).2)).2 := by
    simp [overlapPass, SUPERVISION_PAIRS]
  rw [h1, overlapPairPass_snd_of_ne 96156 96159 _ (by decide)]
  have h2 : (97155 : Rat) = CODE_SUPERVISION_1 := rfl
  rw [h2, overlapPairPass_snd_mark 97153 rows]
  rfl

/-- The marking map of the overlap pass is flag-only. -/
theorem flagOnly_mark (rows : List Row) :
    FlagOnly (fun r => if supMarkCond rows r then setSup r else r) := by
  intro r
  show (if supMarkCond rows r = true then setSup r else r) = r ∨
       (if supMarkCond rows r = true then setSup r else r) = setSup r
  split
  · exact Or.inr rfl
  · exact Or.inl rfl

/-- Composing flag-only functions is flag-only. -/
theorem FlagOnly.comp {f g : Row → Row} (hg : FlagOnly g) (hf : FlagOnly f) :
    FlagOnly (fun r => g (f r)) := by
  intro r
  show g (f r) = r ∨ g (f r) = setSup r
  rcases hf r with h | h <;> rw [h]
  · exact hg r
  · rcases hg (setSup r) with h2 | h2 <;> rw [h2] <;> exact Or.inr rfl

/-- The per-row checks never read the supervised flag. -/
theorem rowChecks_setSup (r : Row) : rowChecks (setSup r) = rowChecks r := by
  cases r
  rfl

/-- The per-row checks are invariant under a flag-only function. -/
theorem rowChecks_flagOnly {f : Row → Row} (hf : FlagOnly f) (r : Row) :
    rowChecks (f r) = rowChecks r := by
  rcases hf r with h | h <;> rw [h]
  exact rowChecks_setSup r

/-- The row pass is invariant under a flag-only map of the table. -/
theorem rowPass_flagOnly {f : Row → Row} (hf : FlagOnly f) (rows : List Row) :
    rowPass (rows.map f) = rowPass rows := by
  induction rows with
  | nil => rfl
  | cons r rs ih =>
    rw [List.map_cons]
    unfold rowPass
    rw [rowChecks_flagOnly hf r, ih]

/-- Filtering a flag-only image by a flag-blind predicate commutes with
the map. -/
theorem filter_flagOnly {f : Row → Row} (hf : FlagOnly f) (p : Row → Bool)
    (hp : ∀ r, p (setSup r) = p r) (l : List Row) :
    (l.map f).filter p = (l.filter p).map f := by
  rw [List.filter_map]
  congr 1
  apply List.filter_congr
  intro r _
  rcases hf r with h | h <;> simp only [Function.comp_apply, h, hp]

/-- Projecting a flag-blind field out of a flag-only image ignores the
map. -/
theorem map_flagOnly {α : Type} {f : Row → Row} (hf : FlagOnly f) (g : Row → α)
    (hg : ∀ r, g (setSup r) = g r) (l : List Row) :
    (l.map f).map g = l.map g := by
  rw [List.map_map]
  apply List.map_congr_left
  intro r _
  rcases hf r with h | h <;> simp only [Function.comp_apply, h, hg]

/-- Emptiness of a mapped list. -/
theorem isEmpty_map {α β : Type} (f : α → β) (l : List α) :
    (l.map f).isEmpty = l.isEmpty := by
  cases l <;> rfl

/-- The earliest start time of a flag-only image. -/
theorem minFrom_flagOnly {f : Row → Row} (hf : FlagOnly f) (l : List Row) :
    minFrom (l.map f) = minFrom l := by
  unfold minFrom
  rw [map_flagOnly hf Row.timeWorkedFrom (fun r => rfl)]

/-- Code filters ignore a flag-only map. -/
theorem filter_code_flagOnly {f : Row → Row} (hf : FlagOnly f) (l : List Row) (x : Rat) :
    (l.map f).filter (fun r => r.procedureCode == x) =
      (l.filter (fun r => r.procedureCode == x)).map f :=
  filter_flagOnly hf (fun r => r.procedureCode == x) (fun _ => rfl) l

/-- The group pass is invariant under a flag-only map of the table. -/
theorem groupChecksFor_flagOnly {f : Row → Row} (hf : FlagOnly f)
    (rows : List Row) (k : String × Int) :
    groupChecksFor (rows.map f) k = groupChecksFor rows k := by
  simp only [groupChecksFor]
  rw [filter_flagOnly hf (fun r => r.clientName == k.1 && r.dateOnly == k.2) (fun r => rfl)]
  simp only [map_flagOnly hf Row.procedureCode (fun r => rfl),
    filter_code_flagOnly hf, isEmpty_map, minFrom_flagOnly hf]

/-- The group keys of a flag-only image. -/
theorem groupKeys_flagOnly {f : Row → Row} (hf : FlagOnly f) (rows : List Row) :
    groupKeys (rows.map f) = groupKeys rows := by
  unfold groupKeys
  rw [map_flagOnly hf groupKey (fun r => rfl)]

/-- The group pass is invariant under a flag-only map of the table. -/
theorem groupPass_flagOnly {f : Row → Row} (hf : FlagOnly f) (rows : List Row) :
    groupPass (rows.map f) = groupPass rows := by
  unfold groupPass
  rw [groupKeys_flagOnly hf, funext (groupChecksFor_flagOnly hf rows)]

/-- The overlap filter ignores a flag-only map on either side. -/
theorem overlapPred_flagOnly {f : Row → Row} (hf : FlagOnly f) (s t : Row) :
    overlapPred (f s) (f t) = overlapPred s t := by
  rcases hf s with h1 | h1 <;> rcases hf t with h2 | h2 <;> rw [h1, h2] <;> rfl

/-- The overlap filter ignores a flag-only map of the supervising row. -/
theorem overlapPred_flagOnly_left {f : Row → Row} (hf : FlagOnly f) (s t : Row) :
    overlapPred (f s) t = overlapPred s t := by
  rcases hf s with h1 | h1
  · rw [h1]
  · rw [h1]
    rfl

/-- A flat map only depends on the function's values on the list. -/
theorem flatMap_congr_mem {α β : Type} (l : List α) (f g : α → List β)
    (h : ∀ a ∈ l, f a = g a) : l.flatMap f = l.flatMap g := by
  induction l with
  | nil => rfl
  | cons a as ih =>
    rw [List.flatMap_cons, List.flatMap_cons, h a (List.mem_cons_self a as),
        ih (fun b hb => h b (List.mem_cons_of_mem a hb))]

/-- The No Overlap issue ignores a flag-only map of its row. -/
theorem noOverlapIssue_flagOnly {f : Row → Row} (hf : FlagOnly f)
    (sc tc : Rat) (sup : Row) :
    noOverlapIssue sc tc (f sup) = noOverlapIssue sc tc sup := by
  rcases hf sup with h | h <;> rw [h]
  rfl

/-- The issue list of one supervision pair is invariant under a
flag-only map of the table. -/
theorem overlapPairPass_fst_flagOnly {f : Row → Row} (hf : FlagOnly f)
    (sc tc : Rat) (rows : List Row) :
    (overlapPairPass sc tc (rows.map f)).1 = (overlapPairPass sc tc rows).1 := by
  simp only [overlapPairPass]
  rw [filter_code_flagOnly hf rows sc, filter_code_flagOnly hf rows tc]
  rw [List.flatMap_map]
  apply flatMap_congr_mem
  intro sup _
  have hinner : ((rows.filter (fun r => r.procedureCode == tc)).map f).filter
        (overlapPred (f sup)) =
      ((rows.filter (fun r => r.procedureCode == tc)).filter (overlapPred sup)).map f := by
    rw [filter_flagOnly hf (overlapPred (f sup)) (fun _ => rfl)]
    congr 1
    apply List.filter_congr
    intro t _
    exact overlapPred_flagOnly_left hf sup t
  rw [hinner, isEmpty_map, noOverlapIssue_flagOnly hf sc tc sup]

/-- Any conditional flag-setter is flag-only. -/
theorem flagOnly_ite (c : Row → Bool) :
    FlagOnly (fun r => if c r then setSup r else r) := by
  intro r
  show (if c r = true then setSup r else r) = r ∨
       (if c r = true then setSup r else r) = setSup r
  split
  · exact Or.inr rfl
  · exact Or.inl rfl

/-- The issue list of the whole overlap pass is invariant under a
flag-only map of the table. -/
theorem overlapPass_fst_flagOnly {f : Row → Row} (hf : FlagOnly f) (rows : List Row) :
    (overlapPass (rows.map f)).1 = (overlapPass rows).1 := by
  have h97 : (97155 : Rat) = CODE_SUPERVISION_1 := rfl
  have hL : (overlapPairPass 97155 97153 (rows.map f)).2 = rows.map (fun r =>
      if (f r).procedureCode == 97153 && (rows.map f).any
          (fun s => s.procedureCode == CODE_SUPERVISION_1 && overlapPred s (f r))
      then setSup (f r) else f r) := by
    rw [h97, overlapPairPass_snd_mark 97153 (rows.map f), List.map_map]
    rfl
  have hR : (overlapPairPass 97155 97153 rows).2 = rows.map (fun r =>
      if r.procedureCode == 97153 && rows.any
          (fun s => s.procedureCode == CODE_SUPERVISION_1 && overlapPred s r)
      then setSup r else r) := by
    rw [h97, overlapPairPass_snd_mark 97153 rows]
  have hfL : FlagOnly (fun r =>
      if (f r).procedureCode == 97153 && (rows.map f).any
          (fun s => s.procedureCode == CODE_SUPERVISION_1 && overlapPred s (f r))
      then setSup (f r) else f r) :=
    FlagOnly.comp (flagOnly_ite (fun x => x.procedureCode == 97153 && (rows.map f).any
      (fun s => s.procedureCode == CODE_SUPERVISION_1 && overlapPred s x))) hf
  have hfR : FlagOnly (fun r =>
      if r.procedureCode == 97153 && rows.any
          (fun s => s.procedureCode == CODE_SUPERVISION_1 && overlapPred s r)
      then setSup r else r) :=
    flagOnly_ite _
  rw [overlapPass_fst_eq (rows.map f), overlapPass_fst_eq rows,
      overlapPairPass_fst_flagOnly hf 97155 97153 rows, hL, hR,
      overlapPairPass_fst_flagOnly hfL 96156 96159 rows,
      overlapPairPass_fst_flagOnly hfR 96156 96159 rows]

/-- The marking condition is invariant under a flag-only map of both the
table and the row. -/
theorem any_congr_mem {α : Type} (l : List α) (p q : α → Bool)
    (h : ∀ a ∈ l, p a = q a) : l.any p = l.any q := by
  induction l with
  | nil => rfl
  | cons a as ih =>
    rw [List.any_cons, List.any_cons, h a (List.mem_cons_self a as),
        ih (fun b hb => h b (List.mem_cons_of_mem a hb))]

/-- The marking condition is invariant under a flag-only map of both the
table and the row. -/
theorem supMarkCond_flagOnly {f : Row → Row} (hf : FlagOnly f)
    (rows : List Row) (r : Row) :
    supMarkCond (rows.map f) (f r) = supMarkCond rows r := by
  unfold supMarkCond
  have hc : (f r).procedureCode = r.procedureCode := by
    rcases hf r with h | h
    · rw [h]
    · rw [h]
      rfl
  rw [hc, List.any_map]
  apply congrArg
  apply any_congr_mem
  intro s _
  simp only [Function.comp_apply]
  have hcs : (f s).procedureCode = s.procedureCode := by
    rcases hf s with h | h
    · rw [h]
    · rw [h]
      rfl
  rw [hcs, overlapPred_flagOnly hf s r]

/-- Re-running the overlap pass on its own output marks nothing new. -/
theorem overlapPass_snd_idem (rows : List Row) :
    (overlapPass ((overlapPass rows).2)).2 = (overlapPass rows).2 := by
  rw [overlapPass_snd_eq rows,
      overlapPass_snd_eq (rows.map (fun r => if supMarkCond rows r then setSup r else r)),
      List.map_map]
  apply List.map_congr_left
  intro r _
  simp only [Function.comp_apply]
  rw [supMarkCond_flagOnly (flagOnly_mark rows) rows r]
  by_cases hc : supMarkCond rows r = true
  · simp only [if_pos hc]
    rfl
  · rw [if_neg hc, if_neg hc]

/-- C8: the engine's only effect on the normalized table is the overlap
marking; running the rule engine again on the table exactly as the first
run left it yields the identical issue list in identical order, and the
engine is a pure function, so re-evaluation on equal input cannot
differ. -/
theorem spec_C8 (rows : List Row) :
    runRules ((overlapPass rows).2) = runRules rows := by
  have hm : FlagOnly (fun r => if supMarkCond rows r then setSup r else r) :=
    flagOnly_mark rows
  have hrows2 : (overlapPass rows).2 =
      rows.map (fun r => if supMarkCond rows r then setSup r else r) :=
    overlapPass_snd_eq rows
  unfold runRules
  rw [hrows2, rowPass_flagOnly hm rows]
  cases hrp : rowPass rows with
  | error e => rfl
  | ok rowIss =>
    rw [groupPass_flagOnly hm rows, overlapPass_fst_flagOnly hm rows, ← hrows2,
        overlapPass_snd_idem rows]
